import Mathlib

/-!
# Verification of `flow_accumulation_from_d8` (richdem)

A shallow embedding of `src/include/richdem/methods/flow_accumulation.hpp`
(`richdem::flow_accumulation_from_d8`) together with proofs about the
dependency-count builder, the topological (Kahn) accumulation scheduler and
the no-data finalizer.

Modelling conventions:
* the D8 direction grid is a `D8Grid`: width, height, a row-major cell
  function `data : Nat → Int` (direction codes, type `T` instantiated at a
  signed integer type), and the input's no-data sentinel;
* the `uint32_t` accumulation registers are `Nat` taken modulo `2^32` at
  every write, exactly where the C++ arithmetic wraps;
* the `int8_t` dependency registers are `Int` (the theorems show they stay
  inside `[0, 8]`, so the 8-bit representation never wraps);
* the `while (!q.empty())` loop is a fueled iteration `run`; the engine
  calls it with fuel `size` and we prove the queue empties within that
  many dequeues, so the fuel never binds;
* a ghost field `trace` records the dequeued cells in order; it feeds no
  computation, it only names the schedule in theorem statements.
-/

set_option maxRecDepth 10000
set_option maxHeartbeats 1000000

namespace RichDem

/-- Modelled from the spec: the distinguished "no flow" direction code
(`NO_FLOW` in `richdem/common/constants.hpp`, which is not part of the
sources under verification). Direction codes `1..8` are the eight
neighbours, `0` is "no flow". -/
def NO_FLOW : Int := 0

/-- Modelled from the spec: the declared no-data sentinel that
`flow_accumulation_from_d8` installs on the `uint32_t` output grid
(`ACCUM_NO_DATA` in `richdem/common/constants.hpp`, not part of the sources
under verification): the all-ones 32-bit value. -/
def ACCUM_NO_DATA : Nat := 4294967295

/-- `2^32`, the modulus of the `uint32_t` accumulation registers. -/
def U32 : Nat := 4294967296

/-- Modelled from the spec: the x-components of the eight D8 neighbour
offsets (`d8x` in `richdem/common/constants.hpp`). Index `0` is the
no-flow entry `(0,0)`. An index outside `0..8` is an out-of-bounds read in
the C++ source (undefined behaviour); the total function returns `0` there
and every theorem keeps lookups in range via `validCodesB`. -/
def d8x (n : Int) : Int :=
  if n = 1 then -1 else if n = 2 then -1 else if n = 3 then 0
  else if n = 4 then 1 else if n = 5 then 1 else if n = 6 then 1
  else if n = 7 then 0 else if n = 8 then -1 else 0

/-- Modelled from the spec: the y-components of the eight D8 neighbour
offsets (`d8y` in `richdem/common/constants.hpp`); same conventions as
`d8x`. -/
def d8y (n : Int) : Int :=
  if n = 1 then 0 else if n = 2 then -1 else if n = 3 then -1
  else if n = 4 then -1 else if n = 5 then 0 else if n = 6 then 1
  else if n = 7 then 1 else if n = 8 then 1 else 0

/-- The D8 input raster: a dense row-major grid of direction codes with a
no-data sentinel. Modelled from the spec's grid abstraction (`Array2D` is
an external collaborator of the verified file). -/
structure D8Grid where
  width : Nat
  height : Nat
  data : Nat → Int
  noData : Int

namespace D8Grid

/-- `Array2D::size()`: number of cells. -/
def size (g : D8Grid) : Nat := g.width * g.height

/-- `Array2D::xyToI`: row-major linear index. -/
def xyToI (g : D8Grid) (x y : Nat) : Nat := y * g.width + x

/-- `Array2D::isNoData(i)`: the cell holds the input sentinel. -/
def isNoDataIdxB (g : D8Grid) (i : Nat) : Bool := g.data i == g.noData

/-- `Array2D::inGrid(x,y)` on (possibly negative) coordinates. -/
def inGridB (g : D8Grid) (x y : Int) : Bool :=
  decide (0 ≤ x ∧ x < (g.width : Int) ∧ 0 ≤ y ∧ y < (g.height : Int))

/-- `Array2D::isEdgeCell(x,y)`: first/last row or column. -/
def isEdgeXYB (g : D8Grid) (x y : Int) : Bool :=
  x == 0 || y == 0 || x == (g.width : Int) - 1 || y == (g.height : Int) - 1

/-- `isEdgeCell` on a linear index (row-major coordinates). -/
def isEdgeIdxB (g : D8Grid) (i : Nat) : Bool :=
  isEdgeXYB g ((i % g.width : Nat) : Int) ((i / g.width : Nat) : Int)

/-- Modelled from the spec: `Array2D::nshift(n)`, the linear-index offset
of neighbour `n` on a row-major grid. -/
def nshift (g : D8Grid) (n : Int) : Int := d8x n + d8y n * (g.width : Int)

/-- The interior cells `(x, y)`, `1 ≤ x ≤ width-2`, `1 ≤ y ≤ height-2`, in
the order the two `for` loops of the source visit them (`y` outer). -/
def interiorXY (g : D8Grid) : List (Nat × Nat) :=
  (List.range' 1 (g.height - 2)).flatMap fun y =>
    (List.range' 1 (g.width - 2)).map fun x => (x, y)

/-- A linear index lies in the interior (not on the border). -/
def isInteriorIdxB (g : D8Grid) (i : Nat) : Bool :=
  decide (1 ≤ i % g.width ∧ i % g.width < g.width - 1 ∧
          1 ≤ i / g.width ∧ i / g.width < g.height - 1)

end D8Grid

open D8Grid

/-- One iteration of the dependency-building double loop
(`flow_accumulation.hpp` lines 54–67) at source cell `(x, y)`. -/
def depsUpd (g : D8Grid) (d : Nat → Int) (p : Nat × Nat) : Nat → Int :=
  if g.isNoDataIdxB (g.xyToI p.1 p.2) then d
  else
    let n := g.data (g.xyToI p.1 p.2)
    if n = NO_FLOW then d
    else
      let nx : Int := (p.1 : Int) + d8x n
      let ny : Int := (p.2 : Int) + d8y n
      if !g.inGridB nx ny then d
      else
        let ni : Int := (g.xyToI p.1 p.2 : Int) + g.nshift n
        Function.update d ni.toNat (d ni.toNat + 1)

/-- The dependency pass (`flow_accumulation.hpp` lines 51–69): per cell,
the number of unresolved upstream contributors. -/
def buildDeps (g : D8Grid) : Nat → Int :=
  (interiorXY g).foldl (depsUpd g) (fun _ => 0)

/-- The source-finding pass (`flow_accumulation.hpp` lines 72–79): interior
non-no-data cells with dependency count zero, in loop order. -/
def initQueue (g : D8Grid) (deps : Nat → Int) : List Nat :=
  ((interiorXY g).filter fun p =>
      deps (g.xyToI p.1 p.2) == 0 && !g.isNoDataIdxB (g.xyToI p.1 p.2)).map
    fun p => g.xyToI p.1 p.2

/-- Scheduler state: the `uint32_t` accumulation registers, the `int8_t`
dependency registers, the FIFO ready queue, and the ghost trace of
dequeued cells. -/
structure RunState where
  accum : Nat → Nat
  deps : Nat → Int
  queue : List Nat
  trace : List Nat

/-- The body of the propagation loop (`flow_accumulation.hpp` lines
89–114) for dequeued cell `ci` with remaining queue `rest`. -/
def dequeueStep (g : D8Grid) (ci : Nat) (rest : List Nat) (s : RunState) : RunState :=
  let cAccum := (s.accum ci + 1) % U32
  let accum1 := Function.update s.accum ci cAccum
  let n := g.data ci
  if n = NO_FLOW then ⟨accum1, s.deps, rest, s.trace ++ [ci]⟩
  else
    let ni : Int := (ci : Int) + g.nshift n
    let nx : Int := Int.tmod ni (g.width : Int)
    let ny : Int := Int.tdiv ni (g.width : Int)
    if !g.inGridB nx ny || g.isEdgeXYB nx ny || g.isNoDataIdxB ni.toNat then
      ⟨accum1, s.deps, rest, s.trace ++ [ci]⟩
    else
      let nn := ni.toNat
      let accum2 := Function.update accum1 nn ((accum1 nn + cAccum) % U32)
      let deps2 := Function.update s.deps nn (s.deps nn - 1)
      ⟨accum2, deps2, if deps2 nn = 0 then rest ++ [nn] else rest, s.trace ++ [ci]⟩

/-- One `while` iteration: dequeue the front cell (no-op on an empty
queue). -/
def step (g : D8Grid) (s : RunState) : RunState :=
  match s.queue with
  | [] => s
  | ci :: rest => dequeueStep g ci rest s

/-- The fueled propagation loop (`while (!q.empty())`). -/
def run (g : D8Grid) : Nat → RunState → RunState
  | 0, s => s
  | fuel + 1, s =>
    match s.queue with
    | [] => s
    | ci :: rest => run g fuel (dequeueStep g ci rest s)

/-- The scheduler's start state: zero registers, built dependency counts,
initial ready queue. -/
def initState (g : D8Grid) : RunState :=
  ⟨fun _ => 0, buildDeps g, initQueue g (buildDeps g), []⟩

/-- The state after the propagation loop; fuel `size` is enough
(`run_size_empties_queue`). -/
def finalState (g : D8Grid) : RunState := run g g.size (initState g)

/-- C++ integer-to-`uint32_t` conversion: reduction modulo `2^32`. -/
def intToU32 (v : Int) : Nat := (v % (U32 : Int)).toNat

/-- The whole of `flow_accumulation_from_d8`: dependency pass, source
pass, propagation loop, then the finalize sweep (lines 118–122) that
writes `d8_in.noData()` (converted to `uint32_t`) over every cell that is
no-data in the input. -/
def flow_accumulation_from_d8 (g : D8Grid) : Nat → Nat :=
  fun i =>
    if i < g.size ∧ g.isNoDataIdxB i = true then intToU32 g.noData
    else (finalState g).accum i

/-- Every interior non-no-data cell carries a direction code inside the
table's index domain `0..8`. Outside this set the C++ source reads
`d8x`/`d8y` out of bounds (undefined behaviour), so the theorems about
runs assume it. -/
def validCodesB (g : D8Grid) : Bool :=
  (List.range g.size).all fun i =>
    !g.isInteriorIdxB i || g.isNoDataIdxB i ||
      decide (0 ≤ g.data i ∧ g.data i ≤ 8)

/-- The linear index of the cell that `j` routes into
(`ci + nshift(n)` of the propagation loop, as a truncated `Nat`). -/
def targIdx (g : D8Grid) (j : Nat) : Nat := ((j : Int) + g.nshift (g.data j)).toNat

/-- The delivery guard of the propagation loop (lines 97–108): dequeued
cell `j` forwards its value iff its code is not `NO_FLOW` and the target
is in-grid, not on the border, and not no-data. -/
def forwardB (g : D8Grid) (j : Nat) : Bool :=
  !(g.data j == NO_FLOW) &&
  (let ni : Int := (j : Int) + g.nshift (g.data j)
   g.inGridB (Int.tmod ni (g.width : Int)) (Int.tdiv ni (g.width : Int)) &&
   !(g.isEdgeXYB (Int.tmod ni (g.width : Int)) (Int.tdiv ni (g.width : Int))) &&
   !(g.isNoDataIdxB ni.toNat))

/-- How many cells of the dequeue trace `tr` delivered flow into `j`
(one delivery per dequeue of a forwarding cell whose target is `j`). -/
def delivered (g : D8Grid) (tr : List Nat) (j : Nat) : Nat :=
  tr.countP fun i => forwardB g i && targIdx g i == j

/-- The guard of one dependency-pass iteration at source index `i`
(coordinate form, exactly the conditions of lines 54–65): `i` increments
the count of cell `j`. -/
def hitB (g : D8Grid) (i j : Nat) : Bool :=
  !g.isNoDataIdxB i && !(g.data i == NO_FLOW) &&
  g.inGridB (((i % g.width : Nat) : Int) + d8x (g.data i))
            (((i / g.width : Nat) : Int) + d8y (g.data i)) &&
  (((i : Int) + g.nshift (g.data i)).toNat == j)

/-- The out-edge of the dependency graph at `i`: the unique cell that an
interior, non-no-data, flowing cell routes into (if in-grid). -/
def targetOf (g : D8Grid) (i : Nat) : Option Nat :=
  if g.isInteriorIdxB i && !g.isNoDataIdxB i && !(g.data i == NO_FLOW) &&
     g.inGridB (((i % g.width : Nat) : Int) + d8x (g.data i))
               (((i / g.width : Nat) : Int) + d8y (g.data i))
  then some (((i : Int) + g.nshift (g.data i)).toNat)
  else none

/-- `k`-fold iteration of `targetOf`. -/
def iterTarget (g : D8Grid) : Nat → Nat → Option Nat
  | 0, i => some i
  | k + 1, i => (targetOf g i).bind (iterTarget g k)

/-- The dependency graph (over interior non-no-data sources) has no cycle:
no cell returns to itself in `1..size` steps. -/
def acyclicB (g : D8Grid) : Bool :=
  (List.range g.size).all fun i =>
    (List.range' 1 g.size).all fun k => !(iterTarget g k i == some i)

/-- Formalised from claim C4's words (not from the source): a terminal
cell is a non-no-data cell whose direction is the no-flow code or whose
target is off-grid or no-data. -/
def claimTerminalB (g : D8Grid) (j : Nat) : Bool :=
  !g.isNoDataIdxB j &&
  (g.data j == NO_FLOW ||
   !g.inGridB (((j % g.width : Nat) : Int) + d8x (g.data j))
              (((j / g.width : Nat) : Int) + d8y (g.data j)) ||
   g.isNoDataIdxB (targIdx g j))

/-- Formalised from claim C4's words: one step along the flow field (any
non-no-data cell with an in-grid, non-no-flow target moves there). -/
def flowNextO (g : D8Grid) (j : Nat) : Option Nat :=
  if !g.isNoDataIdxB j && !(g.data j == NO_FLOW) &&
     g.inGridB (((j % g.width : Nat) : Int) + d8x (g.data j))
               (((j / g.width : Nat) : Int) + d8y (g.data j))
  then some (targIdx g j) else none

/-- Formalised from claim C4's words: a terminal cell is reachable from
`j` along the flow field within `fuel` steps. -/
def reachTermB (g : D8Grid) : Nat → Nat → Bool
  | 0, j => claimTerminalB g j
  | fuel + 1, j =>
    claimTerminalB g j ||
      (match flowNextO g j with
       | some t => reachTermB g fuel t
       | none => false)

/-- The dependency pass again, instrumented for the undefined-behaviour
boundary: the second component becomes `true` as soon as a direction code
outside `0..8` is used to index the neighbour tables (an out-of-bounds
read in the C++ source), and the register state stops evolving there. The
first component is the dependency grid mutated so far. -/
def depsUpdTraced (g : D8Grid) (st : (Nat → Int) × Bool) (p : Nat × Nat) :
    (Nat → Int) × Bool :=
  if st.2 then st
  else if g.isNoDataIdxB (g.xyToI p.1 p.2) then st
  else
    let n := g.data (g.xyToI p.1 p.2)
    if n = NO_FLOW then st
    else if n < 0 ∨ 8 < n then (st.1, true)
    else
      let nx : Int := (p.1 : Int) + d8x n
      let ny : Int := (p.2 : Int) + d8y n
      if !g.inGridB nx ny then st
      else
        let ni : Int := (g.xyToI p.1 p.2 : Int) + g.nshift n
        (Function.update st.1 ni.toNat (st.1 ni.toNat + 1), false)

/-- The dependency pass with the undefined-behaviour flag. -/
def buildDepsTraced (g : D8Grid) : (Nat → Int) × Bool :=
  (interiorXY g).foldl (depsUpdTraced g) (fun _ => 0, false)

/-- The cells the scheduler processes: interior and non-no-data. -/
def processedSet (g : D8Grid) : Finset Nat :=
  (Finset.range g.size).filter fun j =>
    g.isInteriorIdxB j = true ∧ g.isNoDataIdxB j = false

/-- Conservation ledger of a scheduler state: the registers still in
flight — everything except the registers of already-dequeued cells that
forwarded their value onward. Each dequeue adds exactly one unit. -/
def liveSum (g : D8Grid) (s : RunState) : Nat :=
  ∑ j ∈ Finset.range g.size,
    if j ∈ s.trace ∧ forwardB g j = true then 0 else s.accum j

/-- Interior non-no-data cells neither enqueued nor dequeued yet: the
potential of the termination measure. -/
def outsideCount (g : D8Grid) (s : RunState) : Nat :=
  ((Finset.range g.size).filter fun j =>
    g.isInteriorIdxB j = true ∧ g.isNoDataIdxB j = false ∧
      j ∉ s.queue ∧ j ∉ s.trace).card

/-- The scheduler invariant: the dequeue trace and ready queue are
duplicate-free and disjoint; a cell sits in the queue or the trace
exactly when it is interior, non-no-data and its dependency count is
zero; the dependency register equals the built count minus the
deliveries received so far; and only interior non-no-data cells ever
hold a nonzero accumulation register. -/
structure Inv (g : D8Grid) (s : RunState) : Prop where
  tnd : s.trace.Nodup
  qnd : s.queue.Nodup
  disj : ∀ j, j ∈ s.trace → j ∉ s.queue
  charac : ∀ j, (j ∈ s.queue ∨ j ∈ s.trace) ↔
      (g.isInteriorIdxB j = true ∧ g.isNoDataIdxB j = false ∧ s.deps j = 0)
  depsEq : ∀ j, s.deps j = buildDeps g j - (delivered g s.trace j : Int)
  accumZ : ∀ j, (g.isInteriorIdxB j = false ∨ g.isNoDataIdxB j = true) →
      s.accum j = 0

/-- The conservation invariant layered over `Inv`: the number of dequeues
equals the in-flight ledger `liveSum`, and every register is bounded by
the dequeue count (so, on grids under `2^32` cells, the `uint32_t`
arithmetic never wraps). -/
structure InvS (g : D8Grid) (s : RunState) : Prop where
  base : Inv g s
  live : s.trace.length = liveSum g s
  bound : ∀ j, s.accum j ≤ s.trace.length

/-! ## Concrete grids used by the claims -/

/-- 3×3 star: every border cell routes into the centre (index 4), whose
code is no-flow. No cell is no-data. -/
def gStar : D8Grid :=
  { width := 3, height := 3,
    data := fun i => (([6, 7, 8, 5, 0, 1, 4, 3, 2] : List Int).getD i 0),
    noData := -1 }

/-- 4×3 manufactured two-cell cycle: the interior cells 5 = (1,1) and
6 = (2,1) route into each other (east/west); everything else is no-flow
and no cell is no-data. -/
def gCyc : D8Grid :=
  { width := 4, height := 3,
    data := fun i => (([0, 0, 0, 0, 0, 5, 1, 0, 0, 0, 0, 0] : List Int).getD i 0),
    noData := -1 }

/-- 3×3 grid whose centre is a no-data cell; the input sentinel is `99`,
which differs from `ACCUM_NO_DATA`. -/
def gND : D8Grid :=
  { width := 3, height := 3,
    data := fun i => (([0, 0, 0, 0, 99, 0, 0, 0, 0] : List Int).getD i 0),
    noData := 99 }

/-- 3×3 grid whose centre (the only interior cell) routes north into the
border cell 1. -/
def gC5 : D8Grid :=
  { width := 3, height := 3,
    data := fun i => (([0, 0, 0, 0, 3, 0, 0, 0, 0] : List Int).getD i 0),
    noData := -1 }

/-- 4×3 grid with an in-domain interior source (cell 5, routing east into
cell 6) followed in loop order by an interior cell with the out-of-domain
direction code 9 (cell 6). -/
def gBad : D8Grid :=
  { width := 4, height := 3,
    data := fun i => (([0, 0, 0, 0, 0, 5, 9, 0, 0, 0, 0, 0] : List Int).getD i 0),
    noData := -1 }

/-! ## Supporting lemmas -/

/-- Membership in the interior scan order. -/
theorem mem_interiorXY (g : D8Grid) (p : Nat × Nat) :
    p ∈ interiorXY g ↔
      1 ≤ p.1 ∧ p.1 < g.width - 1 ∧ 1 ≤ p.2 ∧ p.2 < g.height - 1 := by
  simp only [interiorXY, List.mem_flatMap, List.mem_map, List.mem_range'_1]
  constructor
  · rintro ⟨y, ⟨hy1, hy2⟩, x, ⟨hx1, hx2⟩, rfl⟩
    exact ⟨hx1, by omega, hy1, by omega⟩
  · rintro ⟨h1, h2, h3, h4⟩
    exact ⟨p.2, ⟨h3, by omega⟩, p.1, ⟨h1, by omega⟩, rfl⟩

/-- Row-major index inverts to its coordinates when `x < width`. -/
theorem xyToI_mod_div (g : D8Grid) (x y : Nat) (hx : x < g.width) :
    g.xyToI x y % g.width = x ∧ g.xyToI x y / g.width = y := by
  unfold D8Grid.xyToI
  constructor
  · rw [Nat.mul_comm y g.width, Nat.mul_add_mod]
    exact Nat.mod_eq_of_lt hx
  · rw [Nat.mul_comm y g.width, Nat.mul_add_div (by omega)]
    simp [Nat.div_eq_of_lt hx]

/-- The scan's cells are exactly the interior linear indices. -/
theorem isInteriorIdxB_xyToI (g : D8Grid) (p : Nat × Nat) (hp : p ∈ interiorXY g) :
    g.isInteriorIdxB (g.xyToI p.1 p.2) = true := by
  obtain ⟨h1, h2, h3, h4⟩ := (mem_interiorXY g p).mp hp
  obtain ⟨hm, hd⟩ := xyToI_mod_div g p.1 p.2 (by omega)
  unfold D8Grid.isInteriorIdxB
  rw [hm, hd]
  exact decide_eq_true ⟨h1, h2, h3, h4⟩

/-- Unpacking `isInteriorIdxB`. -/
theorem isInteriorIdx_iff (g : D8Grid) (i : Nat) :
    g.isInteriorIdxB i = true ↔
      1 ≤ i % g.width ∧ i % g.width < g.width - 1 ∧
      1 ≤ i / g.width ∧ i / g.width < g.height - 1 := by
  unfold D8Grid.isInteriorIdxB
  exact decide_eq_true_iff

/-- Interior indices are in-grid. -/
theorem interior_lt_size (g : D8Grid) (i : Nat) (h : g.isInteriorIdxB i = true) :
    i < g.size := by
  obtain ⟨h1, h2, h3, h4⟩ := (isInteriorIdx_iff g i).mp h
  have hw : 0 < g.width := by omega
  have hid : i % g.width + g.width * (i / g.width) = i := Nat.mod_add_div i g.width
  have hle : g.width * (i / g.width + 1) ≤ g.width * (g.height - 1) :=
    Nat.mul_le_mul_left _ (by omega)
  have hexp : g.width * (i / g.width + 1) = g.width * (i / g.width) + g.width :=
    Nat.mul_succ ..
  have hlt : i < g.width * (i / g.width + 1) := by
    have := Nat.mod_lt i hw
    omega
  have : g.width * (g.height - 1) ≤ g.width * g.height :=
    Nat.mul_le_mul_left _ (by omega)
  unfold D8Grid.size
  omega

/-- An interior index is the row-major image of an interior scan pair. -/
theorem interior_mem_map (g : D8Grid) (i : Nat) (h : g.isInteriorIdxB i = true) :
    (i % g.width, i / g.width) ∈ interiorXY g ∧
      g.xyToI (i % g.width) (i / g.width) = i := by
  obtain ⟨h1, h2, h3, h4⟩ := (isInteriorIdx_iff g i).mp h
  refine ⟨(mem_interiorXY g _).mpr ⟨h1, h2, h3, h4⟩, ?_⟩
  unfold D8Grid.xyToI
  have hid := Nat.mod_add_div i g.width
  have hcm : i / g.width * g.width = g.width * (i / g.width) := Nat.mul_comm ..
  omega

/-- One dependency-pass iteration, pointwise: the register of `j` grows by
one exactly when the visited source hits `j`. -/
theorem depsUpd_apply (g : D8Grid) (d : Nat → Int) (p : Nat × Nat)
    (hx : p.1 < g.width) (j : Nat) :
    depsUpd g d p j =
      d j + (if hitB g (g.xyToI p.1 p.2) j then 1 else 0) := by
  obtain ⟨hm, hd⟩ := xyToI_mod_div g p.1 p.2 hx
  unfold depsUpd hitB
  rw [hm, hd]
  by_cases hnd : g.isNoDataIdxB (g.xyToI p.1 p.2) = true
  · simp [hnd]
  · simp only [Bool.not_eq_true] at hnd
    by_cases hnf : g.data (g.xyToI p.1 p.2) = NO_FLOW
    · simp [hnd, hnf]
    · by_cases hin :
        g.inGridB ((p.1 : Int) + d8x (g.data (g.xyToI p.1 p.2)))
                  ((p.2 : Int) + d8y (g.data (g.xyToI p.1 p.2))) = true
      · by_cases hj :
          ((g.xyToI p.1 p.2 : Int) + g.nshift (g.data (g.xyToI p.1 p.2))).toNat = j
        · simp [hnd, hnf, hin, hj, Function.update_same]
        · simp [hnd, hnf, hin, hj, Function.update_noteq (Ne.symm hj)]
      · simp only [Bool.not_eq_true] at hin
        simp [hnd, hnf, hin]

/-- The dependency fold, pointwise: starting register plus the number of
visited sources that hit `j`. -/
theorem foldl_depsUpd_apply (g : D8Grid) (l : List (Nat × Nat))
    (hl : ∀ p ∈ l, p.1 < g.width) (d : Nat → Int) (j : Nat) :
    (l.foldl (depsUpd g) d) j =
      d j + (l.countP fun p => hitB g (g.xyToI p.1 p.2) j : Nat) := by
  induction l generalizing d with
  | nil => simp
  | cons p l ih =>
    rw [List.foldl_cons, ih (fun q hq => hl q (List.mem_cons_of_mem p hq)),
      depsUpd_apply g d p (hl p (List.mem_cons_self p l)) j, List.countP_cons]
    by_cases hp : hitB g (g.xyToI p.1 p.2) j = true
    · simp [hp]; omega
    · simp only [Bool.not_eq_true] at hp
      simp [hp]

/-- The dependency counts over the scan order. -/
theorem buildDeps_eq_countP_XY (g : D8Grid) (j : Nat) :
    buildDeps g j =
      ((interiorXY g).countP fun p => hitB g (g.xyToI p.1 p.2) j : Nat) := by
  unfold buildDeps
  rw [foldl_depsUpd_apply g _ (fun p hp => by
    have := (mem_interiorXY g p).mp hp
    omega) _ j]
  simp

/-- The interior scan pairs are duplicate-free. -/
theorem interiorXY_nodup (g : D8Grid) : (interiorXY g).Nodup := by
  unfold interiorXY
  refine List.nodup_flatMap.mpr ⟨?_, ?_⟩
  · intro y _
    exact (List.nodup_range' _ _).map fun a b h => ((Prod.mk.injEq ..).mp h).1
  · refine List.Pairwise.imp ?_ (List.nodup_range' _ _)
    intro a b hab x hxa hxb
    simp only [List.mem_map] at hxa hxb
    obtain ⟨xa, -, rfl⟩ := hxa
    obtain ⟨xb, -, hb⟩ := hxb
    exact hab (((Prod.mk.injEq ..).mp hb).2.symm)

/-- The row-major images of the scan pairs, duplicate-free. -/
theorem interior_map_nodup (g : D8Grid) :
    ((interiorXY g).map fun p => g.xyToI p.1 p.2).Nodup := by
  refine (interiorXY_nodup g).map_on ?_
  intro p hp q hq hpq
  obtain ⟨hp1, hp2, hp3, hp4⟩ := (mem_interiorXY g p).mp hp
  obtain ⟨hq1, hq2, hq3, hq4⟩ := (mem_interiorXY g q).mp hq
  obtain ⟨hpm, hpd⟩ := xyToI_mod_div g p.1 p.2 (by omega)
  obtain ⟨hqm, hqd⟩ := xyToI_mod_div g q.1 q.2 (by omega)
  have h1 : p.1 = q.1 := by rw [← hpm, ← hqm, hpq]
  have h2 : p.2 = q.2 := by rw [← hpd, ← hqd, hpq]
  exact Prod.ext h1 h2

/-- The scan's image is, up to permutation, the interior filter of the
index range. -/
theorem interior_map_perm (g : D8Grid) :
    List.Perm ((interiorXY g).map fun p => g.xyToI p.1 p.2)
      ((List.range g.size).filter fun i => g.isInteriorIdxB i) := by
  refine (List.perm_ext_iff_of_nodup (interior_map_nodup g)
    ((List.nodup_range _).filter _)).mpr ?_
  intro i
  simp only [List.mem_map, List.mem_filter, List.mem_range]
  constructor
  · rintro ⟨p, hp, rfl⟩
    have hint := isInteriorIdxB_xyToI g p hp
    exact ⟨interior_lt_size g _ hint, hint⟩
  · rintro ⟨_, hint⟩
    obtain ⟨hmem, heq⟩ := interior_mem_map g i hint
    exact ⟨_, hmem, heq⟩

/-- The undefined-behaviour flag of the traced dependency pass is sticky. -/
theorem depsTraced_flag_sticky (g : D8Grid) (l : List (Nat × Nat))
    (st : (Nat → Int) × Bool) (h : st.2 = true) :
    (l.foldl (depsUpdTraced g) st).2 = true := by
  induction l generalizing st with
  | nil => exact h
  | cons q l ih =>
    have hq : depsUpdTraced g st q = st := by
      unfold depsUpdTraced
      simp [h]
    rw [List.foldl_cons, hq]
    exact ih st h

/-- If some visited source cell is non-no-data with a direction code
outside `0..8`, the traced dependency pass raises the
undefined-behaviour flag. -/
theorem depsTraced_flag_of_bad (g : D8Grid) (l : List (Nat × Nat))
    (st : (Nat → Int) × Bool) (p : Nat × Nat) (hmem : p ∈ l)
    (hnd : g.isNoDataIdxB (g.xyToI p.1 p.2) = false)
    (hbad : g.data (g.xyToI p.1 p.2) < 0 ∨ 8 < g.data (g.xyToI p.1 p.2)) :
    (l.foldl (depsUpdTraced g) st).2 = true := by
  induction l generalizing st with
  | nil => cases hmem
  | cons q l ih =>
    rcases List.mem_cons.mp hmem with hq | hq
    · subst hq
      rw [List.foldl_cons]
      by_cases hfl : st.2 = true
      · refine depsTraced_flag_sticky g l (depsUpdTraced g st p) ?_
        unfold depsUpdTraced
        simp [hfl]
      · have hne : ¬ g.data (g.xyToI p.1 p.2) = NO_FLOW := by
          unfold NO_FLOW; omega
        have hstep : depsUpdTraced g st p = (st.1, true) := by
          unfold depsUpdTraced
          simp only [Bool.not_eq_true] at hfl
          simp [hfl, hnd, hne, hbad]
        rw [hstep]
        exact depsTraced_flag_sticky g l (st.1, true) rfl
    · rw [List.foldl_cons]
      exact ih _ hq

/-- The dependency counts in closed form: the number of interior sources
hitting each cell. -/
theorem buildDeps_eq_countP (g : D8Grid) (j : Nat) :
    buildDeps g j =
      (((List.range g.size).countP fun i => g.isInteriorIdxB i && hitB g i j : Nat) : Int) := by
  rw [buildDeps_eq_countP_XY]
  congr 1
  have h1 : ((interiorXY g).countP fun p => hitB g (g.xyToI p.1 p.2) j) =
      (((interiorXY g).map fun p => g.xyToI p.1 p.2).countP fun i => hitB g i j) := by
    rw [List.countP_map]
    rfl
  rw [h1, (interior_map_perm g).countP_eq, List.countP_filter]
  exact List.countP_congr fun i _ => by rw [Bool.and_comm]

/-! ## Index arithmetic of the propagation loop -/

/-- The offset tables only produce `-1`, `0`, `1` (x component). -/
theorem d8x_cases (n : Int) : d8x n = -1 ∨ d8x n = 0 ∨ d8x n = 1 := by
  unfold d8x
  split_ifs <;> simp

/-- The offset tables only produce `-1`, `0`, `1` (y component). -/
theorem d8y_cases (n : Int) : d8y n = -1 ∨ d8y n = 0 ∨ d8y n = 1 := by
  unfold d8y
  split_ifs <;> simp

/-- A flowing direction code has a nonzero offset. -/
theorem d8_nonzero (n : Int) (h1 : 1 ≤ n) (h8 : n ≤ 8) :
    ¬(d8x n = 0 ∧ d8y n = 0) := by
  interval_cases n <;> decide

/-- Interior cells are not edge cells. -/
theorem interior_not_edge (g : D8Grid) (i : Nat)
    (h : g.isInteriorIdxB i = true) : g.isEdgeIdxB i = false := by
  obtain ⟨h1, h2, h3, h4⟩ := (isInteriorIdx_iff g i).mp h
  unfold D8Grid.isEdgeIdxB D8Grid.isEdgeXYB
  have hw : 3 ≤ g.width := by omega
  have hh : 3 ≤ g.height := by omega
  simp only [Bool.or_eq_false_iff, beq_eq_false_iff_ne]
  refine ⟨⟨⟨?_, ?_⟩, ?_⟩, ?_⟩ <;> omega

/-- In-grid indices split into interior and edge. -/
theorem edge_of_not_interior (g : D8Grid) (i : Nat) (hi : i < g.size)
    (h : g.isInteriorIdxB i = false) : g.isEdgeIdxB i = true := by
  have hw : 0 < g.width := by
    rcases Nat.eq_zero_or_pos g.width with h0 | h0
    · exfalso
      unfold D8Grid.size at hi
      rw [h0, Nat.zero_mul] at hi
      omega
    · exact h0
  have hh : 0 < g.height := by
    rcases Nat.eq_zero_or_pos g.height with h0 | h0
    · exfalso
      unfold D8Grid.size at hi
      rw [h0, Nat.mul_zero] at hi
      omega
    · exact h0
  have hxlt : i % g.width < g.width := Nat.mod_lt i hw
  have hylt : i / g.width < g.height := by
    refine Nat.div_lt_of_lt_mul ?_
    unfold D8Grid.size at hi
    exact hi
  have hint : ¬(1 ≤ i % g.width ∧ i % g.width < g.width - 1 ∧
      1 ≤ i / g.width ∧ i / g.width < g.height - 1) := by
    intro hc
    exact absurd ((isInteriorIdx_iff g i).mpr hc) (by simp [h])
  unfold D8Grid.isEdgeIdxB D8Grid.isEdgeXYB
  simp only [Bool.or_eq_true, beq_iff_eq]
  by_cases hx0 : i % g.width = 0
  · exact Or.inl (Or.inl (Or.inl (by omega)))
  · by_cases hxe : i % g.width = g.width - 1
    · exact Or.inl (Or.inr (by omega))
    · by_cases hy0 : i / g.width = 0
      · exact Or.inl (Or.inl (Or.inr (by omega)))
      · refine Or.inr ?_
        have hfail : ¬(i / g.width < g.height - 1) :=
          fun hc => hint ⟨Nat.one_le_iff_ne_zero.mpr hx0,
            lt_of_le_of_ne (Nat.le_pred_of_lt hxlt) hxe,
            Nat.one_le_iff_ne_zero.mpr hy0, hc⟩
        have hfy : i / g.width = g.height - 1 :=
          le_antisymm (Nat.le_pred_of_lt hylt) (Nat.le_of_not_lt hfail)
        rw [hfy]
        exact Nat.cast_pred hh

/-- Target-cell arithmetic for an interior source with an in-domain
direction code: the linear target index decomposes into the coordinate
target, which lies in-grid. -/
theorem target_core (g : D8Grid) (ci : Nat)
    (hint : g.isInteriorIdxB ci = true) :
    0 ≤ (ci : Int) + g.nshift (g.data ci) ∧
    (ci : Int) + g.nshift (g.data ci) < (g.size : Int) ∧
    Int.tmod ((ci : Int) + g.nshift (g.data ci)) (g.width : Int) =
      ((ci % g.width : Nat) : Int) + d8x (g.data ci) ∧
    Int.tdiv ((ci : Int) + g.nshift (g.data ci)) (g.width : Int) =
      ((ci / g.width : Nat) : Int) + d8y (g.data ci) ∧
    0 ≤ ((ci % g.width : Nat) : Int) + d8x (g.data ci) ∧
    ((ci % g.width : Nat) : Int) + d8x (g.data ci) < (g.width : Int) ∧
    0 ≤ ((ci / g.width : Nat) : Int) + d8y (g.data ci) ∧
    ((ci / g.width : Nat) : Int) + d8y (g.data ci) < (g.height : Int) := by
  obtain ⟨h1, h2, h3, h4⟩ := (isInteriorIdx_iff g ci).mp hint
  have hw3 : 3 ≤ g.width := by omega
  have hh3 : 3 ≤ g.height := by omega
  have hdx := d8x_cases (g.data ci)
  have hdy := d8y_cases (g.data ci)
  have hci : (ci : Int) =
      ((ci % g.width : Nat) : Int) + ((ci / g.width : Nat) : Int) * (g.width : Int) := by
    have hc2 : ((ci % g.width : Nat) : Int) +
        (g.width : Int) * ((ci / g.width : Nat) : Int) = (ci : Int) := by
      exact_mod_cast Nat.mod_add_div ci g.width
    linarith [hc2, mul_comm ((ci / g.width : Nat) : Int) (g.width : Int)]
  have hNX0 : 0 ≤ ((ci % g.width : Nat) : Int) + d8x (g.data ci) := by
    rcases hdx with h | h | h <;> rw [h] <;> omega
  have hNXw : ((ci % g.width : Nat) : Int) + d8x (g.data ci) < (g.width : Int) := by
    rcases hdx with h | h | h <;> rw [h] <;> omega
  have hNY0 : 0 ≤ ((ci / g.width : Nat) : Int) + d8y (g.data ci) := by
    rcases hdy with h | h | h <;> rw [h] <;> omega
  have hNYh : ((ci / g.width : Nat) : Int) + d8y (g.data ci) < (g.height : Int) := by
    rcases hdy with h | h | h <;> rw [h] <;> omega
  have hni : (ci : Int) + g.nshift (g.data ci) =
      (((ci % g.width : Nat) : Int) + d8x (g.data ci)) +
        (g.width : Int) * (((ci / g.width : Nat) : Int) + d8y (g.data ci)) := by
    rw [hci]
    unfold D8Grid.nshift
    ring
  have hwpos : (0 : Int) < (g.width : Int) := by omega
  have hnn : 0 ≤ (ci : Int) + g.nshift (g.data ci) := by
    rw [hni]
    have := mul_nonneg (le_of_lt hwpos) hNY0
    omega
  have hsz : ((g.size : Nat) : Int) = (g.width : Int) * (g.height : Int) := by
    unfold D8Grid.size
    push_cast
    ring
  have hlt : (ci : Int) + g.nshift (g.data ci) < (g.size : Int) := by
    rw [hni, hsz]
    have hm : (g.width : Int) * (((ci / g.width : Nat) : Int) + d8y (g.data ci)) ≤
        (g.width : Int) * ((g.height : Int) - 1) :=
      mul_le_mul_of_nonneg_left (by omega) (le_of_lt hwpos)
    have hexp : (g.width : Int) * ((g.height : Int) - 1) =
        (g.width : Int) * (g.height : Int) - (g.width : Int) := by ring
    omega
  have hmod : Int.tmod ((ci : Int) + g.nshift (g.data ci)) (g.width : Int) =
      ((ci % g.width : Nat) : Int) + d8x (g.data ci) := by
    rw [Int.tmod_eq_emod hnn (le_of_lt hwpos), hni, Int.add_mul_emod_self_left,
      Int.emod_eq_of_lt hNX0 hNXw]
  have hdiv : Int.tdiv ((ci : Int) + g.nshift (g.data ci)) (g.width : Int) =
      ((ci / g.width : Nat) : Int) + d8y (g.data ci) := by
    rw [Int.tdiv_eq_ediv hnn (le_of_lt hwpos), hni,
      Int.add_mul_ediv_left _ _ (ne_of_gt hwpos),
      Int.ediv_eq_zero_of_lt hNX0 hNXw]
    ring
  exact ⟨hnn, hlt, hmod, hdiv, hNX0, hNXw, hNY0, hNYh⟩

/-- The target of an interior cell lies in-grid. -/
theorem target_lt_size (g : D8Grid) (ci : Nat)
    (hint : g.isInteriorIdxB ci = true) : targIdx g ci < g.size := by
  obtain ⟨hnn, hlt, -⟩ := target_core g ci hint
  unfold targIdx
  have := Int.toNat_of_nonneg hnn
  omega

/-- Casting the target index back to `Int` recovers the raw offset sum. -/
theorem target_cast (g : D8Grid) (ci : Nat)
    (hint : g.isInteriorIdxB ci = true) :
    ((targIdx g ci : Nat) : Int) = (ci : Int) + g.nshift (g.data ci) := by
  obtain ⟨hnn, -⟩ := target_core g ci hint
  unfold targIdx
  exact Int.toNat_of_nonneg hnn

/-- The in-grid test of the propagation loop always passes for an
interior source. -/
theorem target_ingrid (g : D8Grid) (ci : Nat)
    (hint : g.isInteriorIdxB ci = true) :
    g.inGridB (Int.tmod ((ci : Int) + g.nshift (g.data ci)) (g.width : Int))
      (Int.tdiv ((ci : Int) + g.nshift (g.data ci)) (g.width : Int)) = true := by
  obtain ⟨-, -, hmod, hdiv, hNX0, hNXw, hNY0, hNYh⟩ := target_core g ci hint
  rw [hmod, hdiv]
  unfold D8Grid.inGridB
  exact decide_eq_true ⟨hNX0, hNXw, hNY0, hNYh⟩

/-- The coordinate edge test of the propagation loop coincides with the
index edge test at the target. -/
theorem target_edge_eq (g : D8Grid) (ci : Nat)
    (hint : g.isInteriorIdxB ci = true) :
    g.isEdgeXYB (Int.tmod ((ci : Int) + g.nshift (g.data ci)) (g.width : Int))
      (Int.tdiv ((ci : Int) + g.nshift (g.data ci)) (g.width : Int)) =
    g.isEdgeIdxB (targIdx g ci) := by
  obtain ⟨hnn, hlt, hmod, hdiv, hNX0, hNXw, hNY0, hNYh⟩ := target_core g ci hint
  have hw0 : (0 : Int) ≤ (g.width : Int) := by positivity
  have hcast := target_cast g ci hint
  have hmod' : ((targIdx g ci % g.width : Nat) : Int) =
      Int.tmod ((ci : Int) + g.nshift (g.data ci)) (g.width : Int) := by
    rw [Int.tmod_eq_emod hnn hw0]
    push_cast [hcast]
    rfl
  have hdiv' : ((targIdx g ci / g.width : Nat) : Int) =
      Int.tdiv ((ci : Int) + g.nshift (g.data ci)) (g.width : Int) := by
    rw [Int.tdiv_eq_ediv hnn hw0]
    push_cast [hcast]
    rfl
  unfold D8Grid.isEdgeIdxB
  rw [hmod', hdiv']

/-- An interior cell with a flowing in-domain code never routes to
itself. -/
theorem target_ne (g : D8Grid) (ci : Nat)
    (hint : g.isInteriorIdxB ci = true)
    (h1 : 1 ≤ g.data ci) (h8 : g.data ci ≤ 8) : targIdx g ci ≠ ci := by
  obtain ⟨h1', h2', h3', h4'⟩ := (isInteriorIdx_iff g ci).mp hint
  have hw3 : 3 ≤ g.width := by omega
  obtain ⟨hnn, -⟩ := target_core g ci hint
  have hcast := target_cast g ci hint
  have hsh : g.nshift (g.data ci) ≠ 0 := by
    have hnz := d8_nonzero (g.data ci) h1 h8
    have hdx := d8x_cases (g.data ci)
    have hdy := d8y_cases (g.data ci)
    unfold D8Grid.nshift
    rcases hdx with hx | hx | hx <;> rcases hdy with hy | hy | hy <;> rw [hx, hy]
    all_goals (intro hc; omega)
  intro hc
  apply hsh
  have hceq : ((targIdx g ci : Nat) : Int) = ((ci : Nat) : Int) := by
    exact_mod_cast hc
  omega

/-- For an interior flowing source, the dependency-pass hit test reduces
to "non-no-data and targets `j`". -/
theorem hitB_eq (g : D8Grid) (ci : Nat)
    (hint : g.isInteriorIdxB ci = true)
    (hnf : g.data ci ≠ NO_FLOW) (j : Nat) :
    hitB g ci j = (!g.isNoDataIdxB ci && (targIdx g ci == j)) := by
  obtain ⟨-, -, -, -, hNX0, hNXw, hNY0, hNYh⟩ := target_core g ci hint
  unfold hitB
  have hbeq : (g.data ci == NO_FLOW) = false := beq_eq_false_iff_ne.mpr hnf
  have hin : g.inGridB (((ci % g.width : Nat) : Int) + d8x (g.data ci))
      (((ci / g.width : Nat) : Int) + d8y (g.data ci)) = true := by
    unfold D8Grid.inGridB
    exact decide_eq_true ⟨hNX0, hNXw, hNY0, hNYh⟩
  rw [hbeq, hin]
  unfold targIdx
  simp

/-! ## The propagation loop: step shapes and delivery accounting -/

/-- Unpacking `validCodesB`. -/
theorem valid_dir (g : D8Grid) (hv : validCodesB g = true) (i : Nat)
    (hint : g.isInteriorIdxB i = true) (hnd : g.isNoDataIdxB i = false) :
    0 ≤ g.data i ∧ g.data i ≤ 8 := by
  unfold validCodesB at hv
  rw [List.all_eq_true] at hv
  have := hv i (List.mem_range.mpr (interior_lt_size g i hint))
  rw [hint, hnd] at this
  simpa using this

/-- Appending a dequeued cell to the trace adds its (at most one)
delivery. -/
theorem delivered_append (g : D8Grid) (tr : List Nat) (c j : Nat) :
    delivered g (tr ++ [c]) j =
      delivered g tr j +
        (if (forwardB g c && (targIdx g c == j)) = true then 1 else 0) := by
  unfold delivered
  rw [List.countP_append]
  simp [List.countP_cons]

/-- A duplicate-free trace of interior non-no-data cells delivers into
`j` at most as many times as the dependency pass counted. -/
theorem delivered_le_buildDeps (g : D8Grid)
    (tr : List Nat) (hnd : tr.Nodup)
    (hmem : ∀ i ∈ tr, g.isInteriorIdxB i = true ∧ g.isNoDataIdxB i = false)
    (j : Nat) : (delivered g tr j : Int) ≤ buildDeps g j := by
  rw [buildDeps_eq_countP]
  have hle : delivered g tr j ≤
      (List.range g.size).countP fun i => g.isInteriorIdxB i && hitB g i j := by
    unfold delivered
    rw [List.countP_eq_length_filter, List.countP_eq_length_filter]
    refine (List.subperm_of_subset (hnd.filter _) ?_).length_le
    intro x hx
    rw [List.mem_filter] at hx
    obtain ⟨hxtr, hxp⟩ := hx
    obtain ⟨hxint, hxnd⟩ := hmem x hxtr
    rw [Bool.and_eq_true] at hxp
    obtain ⟨hxfw, hxtg⟩ := hxp
    have hnf : g.data x ≠ NO_FLOW := by
      unfold forwardB at hxfw
      rw [Bool.and_eq_true] at hxfw
      exact fun hc => by simpa [hc] using hxfw.1
    rw [List.mem_filter]
    refine ⟨List.mem_range.mpr (interior_lt_size g x hxint), ?_⟩
    rw [Bool.and_eq_true, hitB_eq g x hxint hnf j]
    exact ⟨hxint, by rw [hxnd]; simpa using hxtg⟩
  exact_mod_cast hle

/-- Bool shape of the propagation guard. -/
theorem bool_guard (a e f : Bool) (h : (a && !e && !f) = false) :
    (!a || e || f) = true := by
  cases a <;> cases e <;> cases f <;> simp_all

/-- `step` on a non-empty queue. -/
theorem step_eq_cons (g : D8Grid) (s : RunState) (ci : Nat) (rest : List Nat)
    (h : s.queue = ci :: rest) : step g s = dequeueStep g ci rest s := by
  cases s with
  | mk a d q t =>
    obtain rfl : q = ci :: rest := h
    rfl

/-- `run` on an empty queue. -/
theorem run_eq_empty (g : D8Grid) (fuel : Nat) (s : RunState)
    (h : s.queue = []) : run g fuel s = s := by
  cases fuel with
  | zero => rfl
  | succ fuel =>
    cases s with
    | mk a d q t =>
      obtain rfl : q = [] := h
      rfl

/-- `run` on a non-empty queue. -/
theorem run_eq_cons (g : D8Grid) (fuel : Nat) (s : RunState) (ci : Nat)
    (rest : List Nat) (h : s.queue = ci :: rest) :
    run g (fuel + 1) s = run g fuel (dequeueStep g ci rest s) := by
  cases s with
  | mk a d q t =>
    obtain rfl : q = ci :: rest := h
    rfl

/-- A dequeued cell that does not forward only finalizes its own
register. -/
theorem dequeueStep_stop (g : D8Grid) (ci : Nat) (rest : List Nat)
    (s : RunState) (hfw : forwardB g ci = false) :
    dequeueStep g ci rest s =
      ⟨Function.update s.accum ci ((s.accum ci + 1) % U32), s.deps, rest,
        s.trace ++ [ci]⟩ := by
  simp only [dequeueStep]
  by_cases hnf : g.data ci = NO_FLOW
  · rw [if_pos hnf]
  · rw [if_neg hnf]
    have hne : (g.data ci == NO_FLOW) = false := beq_eq_false_iff_ne.mpr hnf
    unfold forwardB at hfw
    rw [hne] at hfw
    simp only [Bool.not_false, Bool.true_and] at hfw
    rw [if_pos (bool_guard _ _ _ hfw)]

/-- A dequeued cell that forwards delivers its finalized register to its
target, decrements the target's dependency count, and enqueues the
target exactly when the count reaches zero. -/
theorem dequeueStep_forward (g : D8Grid) (ci : Nat) (rest : List Nat)
    (s : RunState) (hfw : forwardB g ci = true) :
    dequeueStep g ci rest s =
      ⟨Function.update (Function.update s.accum ci ((s.accum ci + 1) % U32))
         (targIdx g ci)
         ((Function.update s.accum ci ((s.accum ci + 1) % U32) (targIdx g ci) +
             (s.accum ci + 1) % U32) % U32),
       Function.update s.deps (targIdx g ci) (s.deps (targIdx g ci) - 1),
       if s.deps (targIdx g ci) - 1 = 0 then rest ++ [targIdx g ci] else rest,
       s.trace ++ [ci]⟩ := by
  unfold forwardB at hfw
  simp only [Bool.and_eq_true, Bool.not_eq_true'] at hfw
  obtain ⟨hne, ⟨hin, hed⟩, hnd⟩ := hfw
  have hnf : ¬ g.data ci = NO_FLOW := by
    intro hc
    simp [hc] at hne
  simp only [dequeueStep]
  rw [if_neg hnf]
  rw [if_neg (by rw [hin, hed, hnd]; simp)]
  rw [Function.update_same]
  rfl

/-- Components of a positive forward test. -/
theorem forward_parts (g : D8Grid) (ci : Nat) (hfw : forwardB g ci = true) :
    g.data ci ≠ NO_FLOW ∧
    g.isEdgeXYB (Int.tmod ((ci : Int) + g.nshift (g.data ci)) (g.width : Int))
      (Int.tdiv ((ci : Int) + g.nshift (g.data ci)) (g.width : Int)) = false ∧
    g.isNoDataIdxB (targIdx g ci) = false := by
  unfold forwardB at hfw
  simp only [Bool.and_eq_true, Bool.not_eq_true'] at hfw
  obtain ⟨hne, ⟨hin, hed⟩, hnd⟩ := hfw
  exact ⟨fun hc => by simp [hc] at hne, hed, hnd⟩

/-- A forwarded target of an interior source is itself interior. -/
theorem forward_target_interior (g : D8Grid) (ci : Nat)
    (hint : g.isInteriorIdxB ci = true) (hfw : forwardB g ci = true) :
    g.isInteriorIdxB (targIdx g ci) = true := by
  obtain ⟨-, hed, -⟩ := forward_parts g ci hfw
  rw [target_edge_eq g ci hint] at hed
  by_contra hc
  rw [Bool.not_eq_true] at hc
  rw [edge_of_not_interior g _ (target_lt_size g ci hint) hc] at hed
  cases hed

/-- The initial ready queue is duplicate-free. -/
theorem initQueue_nodup (g : D8Grid) (deps : Nat → Int) :
    (initQueue g deps).Nodup := by
  unfold initQueue
  refine ((interiorXY_nodup g).filter _).map_on ?_
  intro p hp q hq hpq
  have hp' := List.mem_of_mem_filter hp
  have hq' := List.mem_of_mem_filter hq
  obtain ⟨hp1, hp2, hp3, hp4⟩ := (mem_interiorXY g p).mp hp'
  obtain ⟨hq1, hq2, hq3, hq4⟩ := (mem_interiorXY g q).mp hq'
  obtain ⟨hpm, hpd⟩ := xyToI_mod_div g p.1 p.2 (by omega)
  obtain ⟨hqm, hqd⟩ := xyToI_mod_div g q.1 q.2 (by omega)
  have h1 : p.1 = q.1 := by rw [← hpm, ← hqm, hpq]
  have h2 : p.2 = q.2 := by rw [← hpd, ← hqd, hpq]
  exact Prod.ext h1 h2

/-- Membership in the initial ready queue. -/
theorem mem_initQueue (g : D8Grid) (deps : Nat → Int) (j : Nat) :
    j ∈ initQueue g deps ↔
      g.isInteriorIdxB j = true ∧ g.isNoDataIdxB j = false ∧ deps j = 0 := by
  unfold initQueue
  simp only [List.mem_map, List.mem_filter, Bool.and_eq_true, beq_iff_eq,
    Bool.not_eq_true']
  constructor
  · rintro ⟨p, ⟨hp, hdep, hnd⟩, rfl⟩
    exact ⟨isInteriorIdxB_xyToI g p hp, hnd, hdep⟩
  · rintro ⟨hint, hnd, hdep⟩
    obtain ⟨hmem, heq⟩ := interior_mem_map g j hint
    exact ⟨_, ⟨hmem, by rw [heq]; exact ⟨hdep, hnd⟩⟩, heq⟩

/-- The scheduler invariant holds at the start state. -/
theorem inv_init (g : D8Grid) : Inv g (initState g) where
  tnd := List.nodup_nil
  qnd := initQueue_nodup g (buildDeps g)
  disj := fun j hj => absurd hj (List.not_mem_nil j)
  charac := fun j => by
    rw [show (initState g).queue = initQueue g (buildDeps g) from rfl]
    simp only [initState, List.not_mem_nil, or_false]
    exact mem_initQueue g (buildDeps g) j
  depsEq := fun j => by
    show buildDeps g j = buildDeps g j - (delivered g [] j : Int)
    simp [delivered]
  accumZ := fun j _ => rfl

/-- One dequeue preserves the scheduler invariant. -/
theorem inv_dequeue (g : D8Grid) (hv : validCodesB g = true) (s : RunState)
    (ci : Nat) (rest : List Nat) (hq : s.queue = ci :: rest)
    (inv : Inv g s) : Inv g (dequeueStep g ci rest s) := by
  have hciq : ci ∈ s.queue := by rw [hq]; exact List.mem_cons_self ci rest
  obtain ⟨hciInt, hciNd, hciDeps⟩ := (inv.charac ci).mp (Or.inl hciq)
  obtain ⟨h0, h8⟩ := valid_dir g hv ci hciInt hciNd
  have hcitr : ci ∉ s.trace := fun hc => inv.disj ci hc hciq
  have hqnd := inv.qnd
  rw [hq] at hqnd
  have restNd : rest.Nodup := hqnd.of_cons
  have hcirest : ci ∉ rest := (List.nodup_cons.mp hqnd).1
  have tnd' : (s.trace ++ [ci]).Nodup := by
    rw [List.nodup_append]
    exact ⟨inv.tnd, List.nodup_singleton ci, by
      intro a ha hb
      rw [List.mem_singleton] at hb
      exact hcitr (hb ▸ ha)⟩
  have hmemrest : ∀ j, j ∈ rest → j ∈ s.queue := by
    intro j hj
    rw [hq]
    exact List.mem_cons_of_mem ci hj
  by_cases hfw : forwardB g ci = true
  · -- the dequeued cell forwards into t
    obtain ⟨hnf, hedXY, htnd⟩ := forward_parts g ci hfw
    have h1n : 1 ≤ g.data ci := by
      have : g.data ci ≠ 0 := by
        intro hc
        exact hnf (by rw [hc]; rfl)
      omega
    have htInt : g.isInteriorIdxB (targIdx g ci) = true :=
      forward_target_interior g ci hciInt hfw
    have tne : targIdx g ci ≠ ci := target_ne g ci hciInt h1n h8
    have hmem' : ∀ i ∈ s.trace ++ [ci],
        g.isInteriorIdxB i = true ∧ g.isNoDataIdxB i = false := by
      intro i hi
      rw [List.mem_append, List.mem_singleton] at hi
      rcases hi with hi | rfl
      · obtain ⟨ha, hb, -⟩ := (inv.charac i).mp (Or.inr hi)
        exact ⟨ha, hb⟩
      · exact ⟨hciInt, hciNd⟩
    have hdelApp : ∀ j, delivered g (s.trace ++ [ci]) j =
        delivered g s.trace j + (if targIdx g ci = j then 1 else 0) := by
      intro j
      rw [delivered_append]
      congr 1
      by_cases hj : targIdx g ci = j
      · simp [hj, hfw]
      · simp [hj, hfw]
    have hdelLe := delivered_le_buildDeps g (s.trace ++ [ci]) tnd' hmem'
      (targIdx g ci)
    rw [hdelApp (targIdx g ci), if_pos rfl] at hdelLe
    have hdept1 : 1 ≤ s.deps (targIdx g ci) := by
      have := inv.depsEq (targIdx g ci)
      push_cast at hdelLe this
      omega
    have htq : targIdx g ci ∉ s.queue ∧ targIdx g ci ∉ s.trace := by
      constructor <;> intro hc
      · obtain ⟨-, -, hz⟩ := (inv.charac _).mp (Or.inl hc)
        omega
      · obtain ⟨-, -, hz⟩ := (inv.charac _).mp (Or.inr hc)
        omega
    rw [dequeueStep_forward g ci rest s hfw]
    refine ⟨tnd', ?_, ?_, ?_, ?_, ?_⟩
    ·
      dsimp only
      split_ifs with hz
      · rw [List.nodup_append]
        exact ⟨restNd, List.nodup_singleton _, by
          intro a ha hb
          rw [List.mem_singleton] at hb
          exact htq.1 (hb ▸ hmemrest a ha)⟩
      · exact restNd
    ·
      intro j hj
      dsimp only at hj ⊢
      rw [List.mem_append, List.mem_singleton] at hj
      have hjrest : j ∉ rest := by
        rcases hj with hj | rfl
        · intro hc
          exact inv.disj j hj (hmemrest j hc)
        · exact hcirest
      have hjt : j ≠ targIdx g ci := by
        rcases hj with hj | rfl
        · intro hc
          exact htq.2 (hc ▸ hj)
        · exact fun hc => tne hc.symm
      split_ifs with hz
      · rw [List.mem_append, List.mem_singleton]
        rintro (hc | hc)
        · exact hjrest hc
        · exact hjt hc
      · exact hjrest
    ·
      intro j
      dsimp only
      by_cases hjt : j = targIdx g ci
      · subst hjt
        rw [Function.update_same]
        constructor
        · rintro (hjq | hjtr)
          · split_ifs at hjq with hz
            · exact ⟨htInt, htnd, hz⟩
            · exact absurd (hmemrest _ hjq) htq.1
          · rw [List.mem_append, List.mem_singleton] at hjtr
            rcases hjtr with hjtr | heq
            · exact absurd hjtr htq.2
            · exact absurd heq tne
        · rintro ⟨-, -, hz⟩
          left
          rw [if_pos hz]
          rw [List.mem_append, List.mem_singleton]
          right
          rfl
      · rw [Function.update_noteq hjt]
        have hq' : (j ∈ (if s.deps (targIdx g ci) - 1 = 0
            then rest ++ [targIdx g ci] else rest)) ↔ j ∈ rest := by
          split_ifs with hz
          · rw [List.mem_append, List.mem_singleton]
            exact ⟨fun h => h.resolve_right hjt, Or.inl⟩
          · exact Iff.rfl
        rw [hq', List.mem_append, List.mem_singleton]
        have hold := inv.charac j
        rw [hq, List.mem_cons] at hold
        constructor
        · rintro (hj | hj | rfl)
          · exact hold.mp (Or.inl (Or.inr hj))
          · exact hold.mp (Or.inr hj)
          · exact ⟨hciInt, hciNd, hciDeps⟩
        · intro hrhs
          rcases hold.mpr hrhs with (rfl | hj) | hj
          · right; right; rfl
          · left; exact hj
          · right; left; exact hj
    ·
      intro j
      dsimp only
      rw [hdelApp j]
      by_cases hjt : j = targIdx g ci
      · subst hjt
        rw [Function.update_same, inv.depsEq (targIdx g ci), if_pos rfl]
        push_cast
        ring
      · rw [Function.update_noteq hjt, inv.depsEq j,
          if_neg (fun hc => hjt hc.symm)]
        push_cast
        ring
    ·
      intro j hcond
      dsimp only
      have hjci : j ≠ ci := by
        rintro rfl
        rcases hcond with hc | hc
        · rw [hciInt] at hc; cases hc
        · rw [hciNd] at hc; cases hc
      have hjt : j ≠ targIdx g ci := by
        rintro rfl
        rcases hcond with hc | hc
        · rw [htInt] at hc; cases hc
        · rw [htnd] at hc; cases hc
      rw [Function.update_noteq hjt, Function.update_noteq hjci]
      exact inv.accumZ j hcond
  · -- the dequeued cell stops
    rw [Bool.not_eq_true] at hfw
    rw [dequeueStep_stop g ci rest s hfw]
    refine ⟨tnd', restNd, ?_, ?_, ?_, ?_⟩
    ·
      intro j hj
      dsimp only at hj ⊢
      rw [List.mem_append, List.mem_singleton] at hj
      rcases hj with hj | rfl
      · exact fun hc => inv.disj j hj (hmemrest j hc)
      · exact hcirest
    ·
      intro j
      dsimp only
      rw [List.mem_append, List.mem_singleton]
      have hold := inv.charac j
      rw [hq, List.mem_cons] at hold
      constructor
      · rintro (hj | hj | rfl)
        · exact hold.mp (Or.inl (Or.inr hj))
        · exact hold.mp (Or.inr hj)
        · exact ⟨hciInt, hciNd, hciDeps⟩
      · intro hrhs
        rcases hold.mpr hrhs with (rfl | hj) | hj
        · right; right; rfl
        · left; exact hj
        · right; left; exact hj
    ·
      intro j
      dsimp only
      rw [delivered_append, inv.depsEq j]
      have : (forwardB g ci && (targIdx g ci == j)) = false := by
        rw [hfw]
        rfl
      rw [this]
      simp
    ·
      intro j hcond
      dsimp only
      have hjci : j ≠ ci := by
        rintro rfl
        rcases hcond with hc | hc
        · rw [hciInt] at hc; cases hc
        · rw [hciNd] at hc; cases hc
      rw [Function.update_noteq hjci]
      exact inv.accumZ j hcond

/-- The invariant is preserved by any number of loop iterations. -/
theorem inv_run (g : D8Grid) (hv : validCodesB g = true) (fuel : Nat)
    (s : RunState) (inv : Inv g s) : Inv g (run g fuel s) := by
  induction fuel generalizing s with
  | zero => exact inv
  | succ fuel ih =>
    cases hq : s.queue with
    | nil => rw [run_eq_empty g _ s hq]; exact inv
    | cons ci rest =>
      rw [run_eq_cons g fuel s ci rest hq]
      exact ih _ (inv_dequeue g hv s ci rest hq inv)

/-! ## Termination of the propagation loop -/

/-- One dequeue strictly decreases
`queue length + number of untouched interior cells`. -/
theorem measure_dequeue (g : D8Grid) (hv : validCodesB g = true) (s : RunState)
    (ci : Nat) (rest : List Nat) (hq : s.queue = ci :: rest) (inv : Inv g s) :
    (dequeueStep g ci rest s).queue.length +
      outsideCount g (dequeueStep g ci rest s) + 1 ≤
    s.queue.length + outsideCount g s := by
  have hciq : ci ∈ s.queue := by rw [hq]; exact List.mem_cons_self ci rest
  obtain ⟨hciInt, hciNd, hciDeps⟩ := (inv.charac ci).mp (Or.inl hciq)
  obtain ⟨h0, h8⟩ := valid_dir g hv ci hciInt hciNd
  have hcitr : ci ∉ s.trace := fun hc => inv.disj ci hc hciq
  have hqlen : s.queue.length = rest.length + 1 := by rw [hq]; rfl
  have hmemq : ∀ j, j ∈ s.queue ↔ (j = ci ∨ j ∈ rest) := by
    intro j
    rw [hq, List.mem_cons]
  by_cases hfw : forwardB g ci = true
  · obtain ⟨hnf, hedXY, htnd⟩ := forward_parts g ci hfw
    have h1n : 1 ≤ g.data ci := by
      have hne : g.data ci ≠ 0 := fun hc => hnf (by rw [hc]; rfl)
      omega
    have htInt : g.isInteriorIdxB (targIdx g ci) = true :=
      forward_target_interior g ci hciInt hfw
    have tne : targIdx g ci ≠ ci := target_ne g ci hciInt h1n h8
    rw [dequeueStep_forward g ci rest s hfw]
    dsimp only
    split_ifs with hz
    · -- the target is enqueued: it leaves the outside set
      have htout : targIdx g ci ∉ s.queue ∧ targIdx g ci ∉ s.trace := by
        have hdeq := inv.depsEq (targIdx g ci)
        constructor <;> intro hc
        · obtain ⟨-, -, hzz⟩ := (inv.charac _).mp (Or.inl hc)
          -- the target had dependency count 1 before the decrement
          omega
        · obtain ⟨-, -, hzz⟩ := (inv.charac _).mp (Or.inr hc)
          omega
      have hset : ((Finset.range g.size).filter fun j =>
          g.isInteriorIdxB j = true ∧ g.isNoDataIdxB j = false ∧
            j ∉ (rest ++ [targIdx g ci]) ∧ j ∉ (s.trace ++ [ci])) =
          ((Finset.range g.size).filter fun j =>
            g.isInteriorIdxB j = true ∧ g.isNoDataIdxB j = false ∧
              j ∉ s.queue ∧ j ∉ s.trace).erase (targIdx g ci) := by
        ext j
        rw [Finset.mem_erase, Finset.mem_filter, Finset.mem_filter]
        simp only [List.mem_append, List.mem_singleton, List.not_mem_nil,
          not_or, hmemq]
        tauto
      have htmem : targIdx g ci ∈ (Finset.range g.size).filter fun j =>
          g.isInteriorIdxB j = true ∧ g.isNoDataIdxB j = false ∧
            j ∉ s.queue ∧ j ∉ s.trace := by
        rw [Finset.mem_filter]
        exact ⟨Finset.mem_range.mpr (target_lt_size g ci hciInt),
          htInt, htnd, htout.1, htout.2⟩
      unfold outsideCount
      rw [hset, Finset.card_erase_of_mem htmem]
      have hpos : 0 < ((Finset.range g.size).filter fun j =>
          g.isInteriorIdxB j = true ∧ g.isNoDataIdxB j = false ∧
            j ∉ s.queue ∧ j ∉ s.trace).card :=
        Finset.card_pos.mpr ⟨_, htmem⟩
      rw [List.length_append]
      simp only [List.length_singleton]
      omega
    · -- no enqueue: the outside set is unchanged
      have hset : ((Finset.range g.size).filter fun j =>
          g.isInteriorIdxB j = true ∧ g.isNoDataIdxB j = false ∧
            j ∉ rest ∧ j ∉ (s.trace ++ [ci])) =
          (Finset.range g.size).filter fun j =>
            g.isInteriorIdxB j = true ∧ g.isNoDataIdxB j = false ∧
              j ∉ s.queue ∧ j ∉ s.trace := by
        ext j
        rw [Finset.mem_filter, Finset.mem_filter]
        simp only [List.mem_append, List.mem_singleton, List.not_mem_nil,
          not_or, hmemq]
        tauto
      unfold outsideCount
      rw [hset]
      omega
  · rw [Bool.not_eq_true] at hfw
    rw [dequeueStep_stop g ci rest s hfw]
    dsimp only
    have hset : ((Finset.range g.size).filter fun j =>
        g.isInteriorIdxB j = true ∧ g.isNoDataIdxB j = false ∧
          j ∉ rest ∧ j ∉ (s.trace ++ [ci])) =
        (Finset.range g.size).filter fun j =>
          g.isInteriorIdxB j = true ∧ g.isNoDataIdxB j = false ∧
            j ∉ s.queue ∧ j ∉ s.trace := by
      ext j
      rw [Finset.mem_filter, Finset.mem_filter]
      simp only [List.mem_append, List.mem_singleton, List.not_mem_nil,
        not_or, hmemq]
      tauto
    unfold outsideCount
    rw [hset]
    omega

/-- With fuel at least the measure, the loop drains the queue. -/
theorem run_empties (g : D8Grid) (hv : validCodesB g = true) (fuel : Nat)
    (s : RunState) (inv : Inv g s)
    (hfuel : s.queue.length + outsideCount g s ≤ fuel) :
    (run g fuel s).queue = [] := by
  induction fuel generalizing s with
  | zero =>
    have : s.queue.length = 0 := by omega
    exact List.length_eq_zero.mp this
  | succ fuel ih =>
    cases hq : s.queue with
    | nil => rw [run_eq_empty g _ s hq]; exact hq
    | cons ci rest =>
      rw [run_eq_cons g fuel s ci rest hq]
      refine ih _ (inv_dequeue g hv s ci rest hq inv) ?_
      have := measure_dequeue g hv s ci rest hq inv
      omega

/-- The initial measure is at most the cell count. -/
theorem initial_measure_le (g : D8Grid) :
    (initState g).queue.length + outsideCount g (initState g) ≤ g.size := by
  have hnd : (initQueue g (buildDeps g)).Nodup := initQueue_nodup g _
  have hsub : (initQueue g (buildDeps g)).toFinset ⊆
      (Finset.range g.size).filter fun j =>
        g.isInteriorIdxB j = true ∧ g.isNoDataIdxB j = false := by
    intro j hj
    rw [List.mem_toFinset, mem_initQueue] at hj
    rw [Finset.mem_filter]
    exact ⟨Finset.mem_range.mpr (interior_lt_size g j hj.1), hj.1, hj.2.1⟩
  have hout : outsideCount g (initState g) =
      (((Finset.range g.size).filter fun j =>
        g.isInteriorIdxB j = true ∧ g.isNoDataIdxB j = false) \
          (initQueue g (buildDeps g)).toFinset).card := by
    unfold outsideCount
    congr 1
    ext j
    rw [Finset.mem_sdiff, Finset.mem_filter, Finset.mem_filter,
      List.mem_toFinset]
    show (_ ∧ _ ∧ _ ∧ _ ∧ j ∉ ([] : List Nat)) ↔ _
    simp only [List.not_mem_nil, not_false_iff, and_true]
    tauto
  have hqlen : (initState g).queue.length =
      (initQueue g (buildDeps g)).toFinset.card := by
    show (initQueue g (buildDeps g)).length = _
    rw [List.toFinset_card_of_nodup hnd]
  rw [hqlen, hout]
  have hcards := Finset.card_sdiff_add_card_eq_card hsub
  have hle : (((Finset.range g.size).filter fun j =>
      g.isInteriorIdxB j = true ∧ g.isNoDataIdxB j = false)).card ≤ g.size := by
    calc _ ≤ (Finset.range g.size).card := Finset.card_filter_le _ _
    _ = g.size := Finset.card_range _
  omega

/-- The engine's fuel (`size`) drains the queue on every valid input. -/
theorem run_size_empties (g : D8Grid) (hv : validCodesB g = true) :
    (finalState g).queue = [] :=
  run_empties g hv g.size (initState g) (inv_init g) (initial_measure_le g)

/-- The final trace visits at most `size` cells. -/
theorem final_trace_le (g : D8Grid) (hv : validCodesB g = true) :
    (finalState g).trace.length ≤ g.size := by
  have inv := inv_run g hv g.size (initState g) (inv_init g)
  have hsub : (finalState g).trace ⊆ List.range g.size := by
    intro j hj
    obtain ⟨hjInt, -, -⟩ := (inv.charac j).mp (Or.inr hj)
    exact List.mem_range.mpr (interior_lt_size g j hjInt)
  calc (finalState g).trace.length ≤ (List.range g.size).length :=
        (List.subperm_of_subset inv.tnd hsub).length_le
  _ = g.size := List.length_range g.size

/-- Components of a positive dependency-pass hit. -/
theorem hit_parts (g : D8Grid) (x j : Nat) (h : hitB g x j = true) :
    g.isNoDataIdxB x = false ∧ g.data x ≠ NO_FLOW ∧ targIdx g x = j := by
  unfold hitB at h
  simp only [Bool.and_eq_true, Bool.not_eq_true', beq_iff_eq,
    beq_eq_false_iff_ne] at h
  obtain ⟨⟨⟨h1, h2⟩, h3⟩, h4⟩ := h
  exact ⟨h1, h2, h4⟩

/-- At most one dependency edge per neighbour: the built count never
exceeds 8. -/
theorem buildDeps_le_eight (g : D8Grid) (hv : validCodesB g = true) (j : Nat) :
    buildDeps g j ≤ 8 := by
  rw [buildDeps_eq_countP]
  have h8 : ((List.range g.size).countP
      fun i => g.isInteriorIdxB i && hitB g i j) ≤ 8 := by
    rw [List.countP_eq_length_filter]
    have hLnd : ((List.range g.size).filter
        fun i => g.isInteriorIdxB i && hitB g i j).Nodup :=
      (List.nodup_range _).filter _
    have hmemL : ∀ x ∈ (List.range g.size).filter
        (fun i => g.isInteriorIdxB i && hitB g i j),
        g.isInteriorIdxB x = true ∧ hitB g x j = true := by
      intro x hx
      rw [List.mem_filter, Bool.and_eq_true] at hx
      exact hx.2
    have hmap : (((List.range g.size).filter
        fun i => g.isInteriorIdxB i && hitB g i j).map
          fun x => g.data x).Nodup := by
      refine hLnd.map_on ?_
      intro x hx y hy hxy
      obtain ⟨hxint, hxhit⟩ := hmemL x hx
      obtain ⟨hyint, hyhit⟩ := hmemL y hy
      obtain ⟨-, -, hxt⟩ := hit_parts g x j hxhit
      obtain ⟨-, -, hyt⟩ := hit_parts g y j hyhit
      have hcx := target_cast g x hxint
      have hcy := target_cast g y hyint
      have heq : (x : Int) + g.nshift (g.data x) =
          (y : Int) + g.nshift (g.data y) := by
        rw [← hcx, ← hcy, hxt, hyt]
      rw [hxy] at heq
      have : (x : Int) = (y : Int) := by omega
      exact_mod_cast this
    have hsub : (((List.range g.size).filter
        fun i => g.isInteriorIdxB i && hitB g i j).map fun x => g.data x) ⊆
          [1, 2, 3, 4, 5, 6, 7, 8] := by
      intro n hn
      rw [List.mem_map] at hn
      obtain ⟨x, hx, rfl⟩ := hn
      obtain ⟨hxint, hxhit⟩ := hmemL x hx
      obtain ⟨hxnd, hxnf, -⟩ := hit_parts g x j hxhit
      obtain ⟨l0, l8⟩ := valid_dir g hv x hxint hxnd
      have hne : g.data x ≠ 0 := fun hc => hxnf (by rw [hc]; rfl)
      simp only [List.mem_cons, List.not_mem_nil, or_false]
      omega
    have hlen := (List.subperm_of_subset hmap hsub).length_le
    rw [List.length_map] at hlen
    simpa using hlen
  exact_mod_cast h8

/-- C6. During one run of the scheduler on a valid input: the dequeue
trace is duplicate-free (each cell is dequeued and finalized at most
once); each cell's dependency count always equals its built count minus
the number of deliveries it has received (one decrement per upstream
edge whose source has been finalized); and a cell has been enqueued
(sits in the queue or the trace) exactly when it is interior,
non-no-data and its dependency count has reached zero. -/
theorem C6_scheduler_invariants (g : D8Grid) (hv : validCodesB g = true)
    (k : Nat) :
    (run g k (initState g)).trace.Nodup ∧
    (∀ j, (run g k (initState g)).deps j =
        buildDeps g j - (delivered g (run g k (initState g)).trace j : Int)) ∧
    (∀ j, (j ∈ (run g k (initState g)).queue ∨
        j ∈ (run g k (initState g)).trace) ↔
      (g.isInteriorIdxB j = true ∧ g.isNoDataIdxB j = false ∧
        (run g k (initState g)).deps j = 0)) := by
  have inv := inv_run g hv k (initState g) (inv_init g)
  exact ⟨inv.tnd, inv.depsEq, inv.charac⟩

/-- Witness for `C6_scheduler_invariants`: the star grid after three
dequeue steps, at the centre cell. -/
theorem C6_scheduler_invariants_witness :
    (run gStar 3 (initState gStar)).trace.Nodup ∧
    (run gStar 3 (initState gStar)).deps 4 =
      buildDeps gStar 4 -
        (delivered gStar (run gStar 3 (initState gStar)).trace 4 : Int) ∧
    ((4 ∈ (run gStar 3 (initState gStar)).queue ∨
        4 ∈ (run gStar 3 (initState gStar)).trace) ↔
      (gStar.isInteriorIdxB 4 = true ∧ gStar.isNoDataIdxB 4 = false ∧
        (run gStar 3 (initState gStar)).deps 4 = 0)) :=
  ⟨(C6_scheduler_invariants gStar (by decide) 3).1,
   (C6_scheduler_invariants gStar (by decide) 3).2.1 4,
   (C6_scheduler_invariants gStar (by decide) 3).2.2 4⟩

/-- C7. The propagation loop terminates on every valid input: with fuel
equal to the cell count the ready queue provably empties (each dequeue
consumes one enqueue, and at most `size` cells are ever enqueued), and
the number of dequeue steps — the trace length — is bounded by the cell
count. This holds whether or not the flow field is acyclic; a cyclic
field simply ends with residual nonzero dependency counts. -/
theorem C7_termination (g : D8Grid) (hv : validCodesB g = true) :
    (finalState g).queue = [] ∧ (finalState g).trace.length ≤ g.size :=
  ⟨run_size_empties g hv, final_trace_le g hv⟩

/-- Witness for `C7_termination`: the cyclic grid `gCyc` still drains
its queue within `size` steps. -/
theorem C7_termination_witness :
    (finalState gCyc).queue = [] ∧ (finalState gCyc).trace.length ≤ gCyc.size :=
  C7_termination gCyc (by decide)

/-- C9. On every valid input, every non-no-data border cell ends the run
with accumulation exactly 0: border cells are never enqueued, and flow
routed into them is discarded by the delivery guard. -/
theorem C9_border_zero (g : D8Grid) (hv : validCodesB g = true) (j : Nat)
    (_hj : j < g.size) (hedge : g.isEdgeIdxB j = true)
    (hnd : g.isNoDataIdxB j = false) :
    flow_accumulation_from_d8 g j = 0 := by
  have inv := inv_run g hv g.size (initState g) (inv_init g)
  have hnint : g.isInteriorIdxB j = false := by
    by_contra hc
    rw [Bool.not_eq_false] at hc
    rw [interior_not_edge g j hc] at hedge
    cases hedge
  unfold flow_accumulation_from_d8
  rw [if_neg (by rintro ⟨-, hc⟩; rw [hnd] at hc; cases hc)]
  exact inv.accumZ j (Or.inl hnint)

/-- Witness for `C9_border_zero`: the star grid's corner cell 0, which
even has flow routed into the centre, ends at 0. -/
theorem C9_border_zero_witness : flow_accumulation_from_d8 gStar 0 = 0 :=
  C9_border_zero gStar (by decide) 0 (by decide) (by decide) (by decide)

/-- C10. On every valid input the dependency registers stay inside
`[0, 8]` throughout the run: the build pass increments each cell at most
once per neighbour, and the propagation pass performs at most one
matching decrement per counted edge, so the signed 8-bit register never
wraps and never goes negative. -/
theorem C10_deps_bounds (g : D8Grid) (hv : validCodesB g = true) :
    (∀ j, 0 ≤ buildDeps g j ∧ buildDeps g j ≤ 8) ∧
    (∀ k j, 0 ≤ (run g k (initState g)).deps j ∧
        (run g k (initState g)).deps j ≤ 8) := by
  have hb : ∀ j, 0 ≤ buildDeps g j ∧ buildDeps g j ≤ 8 := fun j =>
    ⟨by rw [buildDeps_eq_countP]; positivity, buildDeps_le_eight g hv j⟩
  refine ⟨hb, fun k j => ?_⟩
  have inv := inv_run g hv k (initState g) (inv_init g)
  have hdel_le := delivered_le_buildDeps g _ inv.tnd
    (fun i hi => by
      obtain ⟨a, b, -⟩ := (inv.charac i).mp (Or.inr hi)
      exact ⟨a, b⟩) j
  have hdeq := inv.depsEq j
  have hnn : (0 : Int) ≤
      (delivered g (run g k (initState g)).trace j : Int) := by positivity
  obtain ⟨hb0, hb8⟩ := hb j
  constructor <;> omega

/-- Witness for `C10_deps_bounds`: the star grid's centre register after
two steps. -/
theorem C10_deps_bounds_witness :
    (0 ≤ buildDeps gStar 4 ∧ buildDeps gStar 4 ≤ 8) ∧
    (0 ≤ (run gStar 2 (initState gStar)).deps 4 ∧
      (run gStar 2 (initState gStar)).deps 4 ≤ 8) :=
  ⟨(C10_deps_bounds gStar (by decide)).1 4,
   (C10_deps_bounds gStar (by decide)).2 2 4⟩

/-! ## Conservation of flow -/

/-- Shifting a sum by a change at a single point. -/
theorem sum_shift_one (S : Finset Nat) (f f' : Nat → Nat) (c d : Nat)
    (hc : c ∈ S) (hagree : ∀ j ∈ S, j ≠ c → f' j = f j)
    (hd : f' c = f c + d) : Finset.sum S f' = Finset.sum S f + d := by
  rw [Finset.sum_eq_add_sum_diff_singleton hc f',
    Finset.sum_eq_add_sum_diff_singleton hc f, hd]
  have hcong : ∑ j ∈ S \ {c}, f' j = ∑ j ∈ S \ {c}, f j :=
    Finset.sum_congr rfl fun j hj => by
      rw [Finset.mem_sdiff, Finset.mem_singleton] at hj
      exact hagree j hj.1 hj.2
  omega

/-- Shifting a sum by a transfer between two points: the source cedes
`a`, the target gains `a + 1`, the sum grows by one. -/
theorem sum_shift_two (S : Finset Nat) (f f' : Nat → Nat) (c t a : Nat)
    (hc : c ∈ S) (ht : t ∈ S) (hne : c ≠ t)
    (hagree : ∀ j ∈ S, j ≠ c → j ≠ t → f' j = f j)
    (hfc : f c = a) (hfc' : f' c = 0) (hft' : f' t = f t + a + 1) :
    Finset.sum S f' = Finset.sum S f + 1 := by
  rw [Finset.sum_eq_add_sum_diff_singleton hc f',
    Finset.sum_eq_add_sum_diff_singleton hc f]
  have htc : t ∈ S \ {c} := by
    rw [Finset.mem_sdiff, Finset.mem_singleton]
    exact ⟨ht, fun hcc => hne hcc.symm⟩
  rw [Finset.sum_eq_add_sum_diff_singleton htc f',
    Finset.sum_eq_add_sum_diff_singleton htc f]
  have hcong : ∑ j ∈ (S \ {c}) \ {t}, f' j = ∑ j ∈ (S \ {c}) \ {t}, f j :=
    Finset.sum_congr rfl fun j hj => by
      rw [Finset.mem_sdiff, Finset.mem_sdiff, Finset.mem_singleton,
        Finset.mem_singleton] at hj
      exact hagree j hj.1.1 hj.1.2 hj.2
  omega

/-- Two distinct terms are bounded by the whole (Nat) sum. -/
theorem two_term_le_sum (S : Finset Nat) (f : Nat → Nat) (c t : Nat)
    (hc : c ∈ S) (ht : t ∈ S) (hne : c ≠ t) :
    f c + f t ≤ Finset.sum S f := by
  rw [Finset.sum_eq_add_sum_diff_singleton hc f]
  have htc : t ∈ S \ {c} := by
    rw [Finset.mem_sdiff, Finset.mem_singleton]
    exact ⟨ht, fun hcc => hne hcc.symm⟩
  have := Finset.single_le_sum (f := f) (fun i _ => Nat.zero_le (f i)) htc
  omega

/-- Duplicate-free lists of interior cells have at most `size` members. -/
theorem trace_le_size (g : D8Grid) (l : List Nat) (hnd : l.Nodup)
    (hmem : ∀ j ∈ l, g.isInteriorIdxB j = true) : l.length ≤ g.size := by
  have hsub : l ⊆ List.range g.size := fun j hj =>
    List.mem_range.mpr (interior_lt_size g j (hmem j hj))
  calc l.length ≤ (List.range g.size).length :=
        (List.subperm_of_subset hnd hsub).length_le
  _ = g.size := List.length_range g.size

/-- A forwarded target was neither enqueued nor dequeued before the
delivery, and its dependency count was still positive. -/
theorem target_not_seen (g : D8Grid) (s : RunState) (ci : Nat)
    (hciInt : g.isInteriorIdxB ci = true) (hciNd : g.isNoDataIdxB ci = false)
    (hcitr : ci ∉ s.trace) (inv : Inv g s) (hfw : forwardB g ci = true) :
    1 ≤ s.deps (targIdx g ci) ∧
    targIdx g ci ∉ s.queue ∧ targIdx g ci ∉ s.trace := by
  have tnd' : (s.trace ++ [ci]).Nodup := by
    rw [List.nodup_append]
    exact ⟨inv.tnd, List.nodup_singleton ci, by
      intro a ha hb
      rw [List.mem_singleton] at hb
      exact hcitr (hb ▸ ha)⟩
  have hmem' : ∀ i ∈ s.trace ++ [ci],
      g.isInteriorIdxB i = true ∧ g.isNoDataIdxB i = false := by
    intro i hi
    rw [List.mem_append, List.mem_singleton] at hi
    rcases hi with hi | rfl
    · obtain ⟨ha, hb, -⟩ := (inv.charac i).mp (Or.inr hi)
      exact ⟨ha, hb⟩
    · exact ⟨hciInt, hciNd⟩
  have hdelLe := delivered_le_buildDeps g (s.trace ++ [ci]) tnd' hmem'
    (targIdx g ci)
  rw [delivered_append, if_pos (by rw [hfw]; simp)] at hdelLe
  have hdeq := inv.depsEq (targIdx g ci)
  have hdept1 : 1 ≤ s.deps (targIdx g ci) := by
    push_cast at hdelLe hdeq
    omega
  refine ⟨hdept1, ?_, ?_⟩ <;> intro hc
  · obtain ⟨-, -, hz⟩ := (inv.charac _).mp (Or.inl hc)
    omega
  · obtain ⟨-, -, hz⟩ := (inv.charac _).mp (Or.inr hc)
    omega

/-- The conservation invariant holds at the start state. -/
theorem invS_init (g : D8Grid) : InvS g (initState g) where
  base := inv_init g
  live := by
    have : liveSum g (initState g) = 0 := by
      unfold liveSum
      exact Finset.sum_eq_zero fun j _ => by
        split_ifs <;> rfl
    rw [this]
    rfl
  bound := fun j => Nat.le_refl 0

/-- One dequeue preserves the conservation invariant (grids under `2^32`
cells). -/
theorem invS_dequeue (g : D8Grid) (hv : validCodesB g = true)
    (hsz : g.size < U32) (s : RunState) (ci : Nat) (rest : List Nat)
    (hq : s.queue = ci :: rest) (invS : InvS g s) :
    InvS g (dequeueStep g ci rest s) := by
  have inv := invS.base
  have hciq : ci ∈ s.queue := by rw [hq]; exact List.mem_cons_self ci rest
  obtain ⟨hciInt, hciNd, hciDeps⟩ := (inv.charac ci).mp (Or.inl hciq)
  obtain ⟨h0, h8⟩ := valid_dir g hv ci hciInt hciNd
  have hcitr : ci ∉ s.trace := fun hc => inv.disj ci hc hciq
  have tnd' : (s.trace ++ [ci]).Nodup := by
    rw [List.nodup_append]
    exact ⟨inv.tnd, List.nodup_singleton ci, by
      intro a ha hb
      rw [List.mem_singleton] at hb
      exact hcitr (hb ▸ ha)⟩
  have hmemtr : ∀ j ∈ s.trace ++ [ci], g.isInteriorIdxB j = true := by
    intro j hj
    rw [List.mem_append, List.mem_singleton] at hj
    rcases hj with hj | rfl
    · exact ((inv.charac j).mp (Or.inr hj)).1
    · exact hciInt
  have hlen1 : s.trace.length + 1 ≤ g.size := by
    have := trace_le_size g _ tnd' hmemtr
    rw [List.length_append, List.length_singleton] at this
    exact this
  have hciS : ci ∈ Finset.range g.size :=
    Finset.mem_range.mpr (interior_lt_size g ci hciInt)
  have ha1 : (s.accum ci + 1) % U32 = s.accum ci + 1 :=
    Nat.mod_eq_of_lt (by have := invS.bound ci; omega)
  have hbase' := inv_dequeue g hv s ci rest hq inv
  have hmemiff : ∀ j, j ≠ ci → ((j ∈ s.trace ++ [ci]) ↔ j ∈ s.trace) := by
    intro j hne
    rw [List.mem_append, List.mem_singleton]
    exact ⟨fun h => h.resolve_right hne, Or.inl⟩
  by_cases hfw : forwardB g ci = true
  · -- forward into t
    obtain ⟨hnf, hedXY, htnd⟩ := forward_parts g ci hfw
    have h1n : 1 ≤ g.data ci := by
      have hne : g.data ci ≠ 0 := fun hc => hnf (by rw [hc]; rfl)
      omega
    have htInt : g.isInteriorIdxB (targIdx g ci) = true :=
      forward_target_interior g ci hciInt hfw
    have tne : targIdx g ci ≠ ci := target_ne g ci hciInt h1n h8
    obtain ⟨hdept1, htqq, htqt⟩ :=
      target_not_seen g s ci hciInt hciNd hcitr inv hfw
    have htS : targIdx g ci ∈ Finset.range g.size :=
      Finset.mem_range.mpr (target_lt_size g ci hciInt)
    have htwo : s.accum ci + s.accum (targIdx g ci) ≤ s.trace.length := by
      have hle := two_term_le_sum (Finset.range g.size)
        (fun j => if j ∈ s.trace ∧ forwardB g j = true then 0 else s.accum j)
        ci (targIdx g ci) hciS htS (fun h => tne h.symm)
      dsimp only at hle
      have h1 : (if ci ∈ s.trace ∧ forwardB g ci = true then 0
          else s.accum ci) = s.accum ci := by
        rw [if_neg (fun hc => hcitr hc.1)]
      have h2 : (if targIdx g ci ∈ s.trace ∧ forwardB g (targIdx g ci) = true
          then 0 else s.accum (targIdx g ci)) = s.accum (targIdx g ci) := by
        rw [if_neg (fun hc => htqt hc.1)]
      rw [h1, h2] at hle
      rw [invS.live]
      exact hle
    have hamod : (Function.update s.accum ci ((s.accum ci + 1) % U32)
        (targIdx g ci) + (s.accum ci + 1) % U32) % U32 =
        s.accum (targIdx g ci) + s.accum ci + 1 := by
      rw [Function.update_noteq tne, ha1]
      rw [Nat.mod_eq_of_lt (by omega)]
      ring
    rw [dequeueStep_forward g ci rest s hfw] at hbase' ⊢
    refine ⟨hbase', ?_, ?_⟩
    · -- conservation ledger
      show (s.trace ++ [ci]).length = liveSum g _
      unfold liveSum
      dsimp only
      have hsum := sum_shift_two (Finset.range g.size)
        (fun j => if j ∈ s.trace ∧ forwardB g j = true then 0 else s.accum j)
        (fun j => if j ∈ s.trace ++ [ci] ∧ forwardB g j = true then 0
          else Function.update
            (Function.update s.accum ci ((s.accum ci + 1) % U32))
            (targIdx g ci)
            ((Function.update s.accum ci ((s.accum ci + 1) % U32)
              (targIdx g ci) + (s.accum ci + 1) % U32) % U32) j)
        ci (targIdx g ci) (s.accum ci) hciS htS (fun h => tne h.symm)
        ?_ ?_ ?_ ?_
      · have hlive := invS.live
        unfold liveSum at hlive
        rw [List.length_append, List.length_singleton]
        omega
      · intro j hjS hjc hjt
        dsimp only
        rw [Function.update_noteq hjt, Function.update_noteq hjc]
        by_cases hco : j ∈ s.trace ∧ forwardB g j = true
        · rw [if_pos ⟨(hmemiff j hjc).mpr hco.1, hco.2⟩, if_pos hco]
        · rw [if_neg (fun hc => hco ⟨(hmemiff j hjc).mp hc.1, hc.2⟩),
            if_neg hco]
      · dsimp only
        rw [if_neg (fun hc => hcitr hc.1)]
      · dsimp only
        rw [if_pos ⟨by rw [List.mem_append, List.mem_singleton]; right; rfl,
          hfw⟩]
      · have hmt : targIdx g ci ∉ s.trace ++ [ci] := by
          rw [List.mem_append, List.mem_singleton]
          rintro (hc | hc)
          · exact htqt hc
          · exact tne hc
        dsimp only
        rw [if_neg (fun hc => hmt hc.1), if_neg (fun hc => htqt hc.1),
          Function.update_same, hamod]
    · -- register bound
      intro j
      dsimp only
      rw [List.length_append, List.length_singleton]
      by_cases hjt : j = targIdx g ci
      · subst hjt
        rw [Function.update_same, hamod]
        omega
      · rw [Function.update_noteq hjt]
        by_cases hjc : j = ci
        · subst hjc
          rw [Function.update_same, ha1]
          have := invS.bound j
          omega
        · rw [Function.update_noteq hjc]
          have := invS.bound j
          omega
  · -- stop
    rw [Bool.not_eq_true] at hfw
    rw [dequeueStep_stop g ci rest s hfw] at hbase' ⊢
    refine ⟨hbase', ?_, ?_⟩
    · show (s.trace ++ [ci]).length = liveSum g _
      unfold liveSum
      dsimp only
      have hsum := sum_shift_one (Finset.range g.size)
        (fun j => if j ∈ s.trace ∧ forwardB g j = true then 0 else s.accum j)
        (fun j => if j ∈ s.trace ++ [ci] ∧ forwardB g j = true then 0
          else Function.update s.accum ci ((s.accum ci + 1) % U32) j)
        ci 1 hciS ?_ ?_
      · have hlive := invS.live
        unfold liveSum at hlive
        rw [List.length_append, List.length_singleton]
        omega
      · intro j hjS hjc
        dsimp only
        rw [Function.update_noteq hjc]
        by_cases hco : j ∈ s.trace ∧ forwardB g j = true
        · rw [if_pos ⟨(hmemiff j hjc).mpr hco.1, hco.2⟩, if_pos hco]
        · rw [if_neg (fun hc => hco ⟨(hmemiff j hjc).mp hc.1, hc.2⟩),
            if_neg hco]
      · dsimp only
        rw [if_neg (fun hc => by rw [hfw] at hc; exact Bool.false_ne_true hc.2),
          if_neg (fun hc => hcitr hc.1), Function.update_same, ha1]
    · intro j
      dsimp only
      rw [List.length_append, List.length_singleton]
      by_cases hjc : j = ci
      · subst hjc
        rw [Function.update_same, ha1]
        have := invS.bound j
        omega
      · rw [Function.update_noteq hjc]
        have := invS.bound j
        omega

/-- The conservation invariant is preserved by any number of loop
iterations. -/
theorem invS_run (g : D8Grid) (hv : validCodesB g = true)
    (hsz : g.size < U32) (fuel : Nat) (s : RunState) (invS : InvS g s) :
    InvS g (run g fuel s) := by
  induction fuel generalizing s with
  | zero => exact invS
  | succ fuel ih =>
    cases hq : s.queue with
    | nil => rw [run_eq_empty g _ s hq]; exact invS
    | cons ci rest =>
      rw [run_eq_cons g fuel s ci rest hq]
      exact ih _ (invS_dequeue g hv hsz s ci rest hq invS)

/-- Building a positive forward test from its components. -/
theorem forwardB_of (g : D8Grid) (i : Nat) (hint : g.isInteriorIdxB i = true)
    (hnf : g.data i ≠ NO_FLOW)
    (hedge : g.isEdgeIdxB (targIdx g i) = false)
    (hndt : g.isNoDataIdxB (targIdx g i) = false) : forwardB g i = true := by
  have hndt' : g.isNoDataIdxB ((i : Int) + g.nshift (g.data i)).toNat = false :=
    hndt
  simp only [forwardB]
  rw [target_ingrid g i hint, target_edge_eq g i hint, hedge, hndt',
    beq_eq_false_iff_ne.mpr hnf]
  rfl

/-- A dependency-pass hit from an interior source is an edge of the
dependency graph. -/
theorem targetOf_eq (g : D8Grid) (y x : Nat)
    (hint : g.isInteriorIdxB y = true) (hhit : hitB g y x = true) :
    targetOf g y = some x := by
  unfold hitB at hhit
  simp only [Bool.and_eq_true, Bool.not_eq_true', beq_iff_eq] at hhit
  obtain ⟨⟨⟨h1, h2⟩, h3⟩, h4⟩ := hhit
  unfold targetOf
  rw [hint, h1, h2, h3]
  simp only [Bool.not_false, Bool.true_and, Bool.and_self, if_true]
  rw [h4]

/-- Kahn completeness: on an acyclic valid input, every interior
non-no-data cell is eventually dequeued. -/
theorem kahn_complete (g : D8Grid) (hv : validCodesB g = true)
    (hacy : acyclicB g = true) (j : Nat)
    (hint : g.isInteriorIdxB j = true) (hnd : g.isNoDataIdxB j = false) :
    j ∈ (finalState g).trace := by
  classical
  by_contra hjtr
  have inv : Inv g (finalState g) := inv_run g hv g.size (initState g) (inv_init g)
  have hqe := run_size_empties g hv
  set N : Finset Nat := (Finset.range g.size).filter
    (fun i => g.isInteriorIdxB i = true ∧ g.isNoDataIdxB i = false ∧
      i ∉ (finalState g).trace) with hN
  have hjN : j ∈ N := by
    rw [hN, Finset.mem_filter]
    exact ⟨Finset.mem_range.mpr (interior_lt_size g j hint), hint, hnd, hjtr⟩
  have hNsize : ∀ x ∈ N, x < g.size := by
    intro x hx
    rw [hN, Finset.mem_filter, Finset.mem_range] at hx
    exact hx.1
  -- every never-finalized cell keeps a never-finalized upstream source
  have hpred : ∀ x ∈ N, ∃ i ∈ N, targetOf g i = some x := by
    intro x hx
    rw [hN, Finset.mem_filter] at hx
    obtain ⟨hxR, hxInt, hxNd, hxTr⟩ := hx
    have hdep : (finalState g).deps x ≠ 0 := by
      intro hz
      refine hxTr (((inv.charac x).mpr ⟨hxInt, hxNd, hz⟩).resolve_left ?_)
      rw [hqe]
      exact List.not_mem_nil x
    by_contra hno
    push_neg at hno
    apply hdep
    rw [inv.depsEq x]
    have htrmem : ∀ i ∈ (finalState g).trace,
        g.isInteriorIdxB i = true ∧ g.isNoDataIdxB i = false := by
      intro i hi
      obtain ⟨a, b, -⟩ := (inv.charac i).mp (Or.inr hi)
      exact ⟨a, b⟩
    have hle := delivered_le_buildDeps g _ inv.tnd htrmem x
    -- every counted edge source is in the trace and delivers
    have hge : buildDeps g x ≤ (delivered g (finalState g).trace x : Int) := by
      rw [buildDeps_eq_countP]
      have hnat : ((List.range g.size).countP
          fun i => g.isInteriorIdxB i && hitB g i x) ≤
          delivered g (finalState g).trace x := by
        unfold delivered
        rw [List.countP_eq_length_filter, List.countP_eq_length_filter]
        refine (List.subperm_of_subset
          ((List.nodup_range _).filter _) ?_).length_le
        intro y hy
        rw [List.mem_filter, Bool.and_eq_true] at hy
        obtain ⟨-, hyInt, hyHit⟩ := hy
        obtain ⟨hyNd, hyNf, hyTg⟩ := hit_parts g y x hyHit
        have hytr : y ∈ (finalState g).trace := by
          by_contra hc
          exact hno y (by
            rw [hN, Finset.mem_filter]
            exact ⟨Finset.mem_range.mpr (interior_lt_size g y hyInt),
              hyInt, hyNd, hc⟩) (targetOf_eq g y x hyInt hyHit)
        have hfw : forwardB g y = true := by
          refine forwardB_of g y hyInt hyNf ?_ ?_ <;> rw [hyTg]
          · exact interior_not_edge g x hxInt
          · exact hxNd
        rw [List.mem_filter]
        refine ⟨hytr, ?_⟩
        rw [Bool.and_eq_true]
        exact ⟨hfw, by rw [hyTg]; exact beq_self_eq_true x⟩
      exact_mod_cast hnat
    omega
  -- iterate the predecessor choice and pigeonhole it
  let seq : Nat → Nat := fun k => Nat.rec j (fun _ prev =>
    if h : ∃ i ∈ N, targetOf g i = some prev then h.choose else 0) k
  have hstep : ∀ k, seq k ∈ N →
      seq (k + 1) ∈ N ∧ targetOf g (seq (k + 1)) = some (seq k) := by
    intro k hk
    have hex := hpred (seq k) hk
    have hs : seq (k + 1) = hex.choose := by
      show (if h : ∃ i ∈ N, targetOf g i = some (seq k)
        then h.choose else 0) = hex.choose
      rw [dif_pos hex]
    obtain ⟨hmem, htg⟩ := hex.choose_spec
    exact ⟨hs ▸ hmem, hs ▸ htg⟩
  have hseqN : ∀ k, seq k ∈ N := by
    intro k
    induction k with
    | zero => exact hjN
    | succ k ih => exact (hstep k ih).1
  have hiter : ∀ m a, iterTarget g m (seq (a + m)) = some (seq a) := by
    intro m
    induction m with
    | zero => intro a; rfl
    | succ m ih =>
      intro a
      show (targetOf g (seq (a + m + 1))).bind (iterTarget g m) = some (seq a)
      rw [(hstep (a + m) (hseqN _)).2]
      show iterTarget g m (seq (a + m)) = some (seq a)
      exact ih a
  have hcard : N.card < (Finset.range (g.size + 1)).card := by
    rw [Finset.card_range]
    have h1 : N.card ≤ g.size := by
      rw [hN]
      have h2 := Finset.card_filter_le (Finset.range g.size)
        fun i => g.isInteriorIdxB i = true ∧ g.isNoDataIdxB i = false ∧
          i ∉ (finalState g).trace
      rw [Finset.card_range] at h2
      exact h2
    omega
  obtain ⟨a, ha, b, hb, hab, hfeq⟩ :=
    Finset.exists_ne_map_eq_of_card_lt_of_maps_to hcard fun k _ => hseqN k
  have hcyc : ∀ a b : Nat, a < b → b ≤ g.size → seq a = seq b → False := by
    intro a b hlt hble heq
    have hit := hiter (b - a) a
    rw [show a + (b - a) = b from by omega, heq] at hit
    unfold acyclicB at hacy
    rw [List.all_eq_true] at hacy
    have h1 := hacy (seq b) (List.mem_range.mpr (hNsize _ (hseqN b)))
    rw [List.all_eq_true] at h1
    have h2 := h1 (b - a) (by rw [List.mem_range'_1]; omega)
    rw [hit] at h2
    simp at h2
  rcases lt_or_gt_of_ne hab with h | h
  · exact hcyc a b h (by have := Finset.mem_range.mp hb; omega) hfeq
  · exact hcyc b a h (by have := Finset.mem_range.mp ha; omega) hfeq.symm

/-- The engine's output at a non-no-data cell is the loop's register. -/
theorem engine_accum (g : D8Grid) (j : Nat)
    (hnd : g.isNoDataIdxB j = false) :
    flow_accumulation_from_d8 g j = (finalState g).accum j := by
  unfold flow_accumulation_from_d8
  rw [if_neg (by rintro ⟨-, hc⟩; rw [hnd] at hc; cases hc)]

/-- C4, amended. For every valid acyclic input with fewer than `2^32`
cells, the sum of the returned accumulation values over the stopping
cells — the interior non-no-data cells that forward nowhere (no-flow
code, or target off-grid, on the border, or no-data) — equals the number
of interior non-no-data cells: every processed cell's unit of flow comes
to rest at exactly one stopping cell. -/
theorem C4_amended (g : D8Grid) (hv : validCodesB g = true)
    (hacy : acyclicB g = true) (hsz : g.size < U32) :
    (∑ j ∈ Finset.range g.size,
        if g.isInteriorIdxB j = true ∧ g.isNoDataIdxB j = false ∧
            forwardB g j = false
        then flow_accumulation_from_d8 g j else 0) =
      ((Finset.range g.size).filter fun j =>
        g.isInteriorIdxB j = true ∧ g.isNoDataIdxB j = false).card := by
  have invS : InvS g (finalState g) :=
    invS_run g hv hsz g.size (initState g) (invS_init g)
  have inv := invS.base
  have htr : ∀ j, j ∈ (finalState g).trace ↔
      (g.isInteriorIdxB j = true ∧ g.isNoDataIdxB j = false) := by
    intro j
    constructor
    · intro hj
      obtain ⟨a, b, -⟩ := (inv.charac j).mp (Or.inr hj)
      exact ⟨a, b⟩
    · rintro ⟨ha, hb⟩
      exact kahn_complete g hv hacy j ha hb
  have hlen : (finalState g).trace.length =
      ((Finset.range g.size).filter fun j =>
        g.isInteriorIdxB j = true ∧ g.isNoDataIdxB j = false).card := by
    rw [← List.toFinset_card_of_nodup inv.tnd]
    congr 1
    ext j
    rw [List.mem_toFinset, Finset.mem_filter, Finset.mem_range, htr j]
    constructor
    · rintro ⟨ha, hb⟩
      exact ⟨interior_lt_size g j ha, ha, hb⟩
    · rintro ⟨-, ha, hb⟩
      exact ⟨ha, hb⟩
  have hlive := invS.live
  unfold liveSum at hlive
  rw [← hlen, hlive]
  refine Finset.sum_congr rfl fun j hjS => ?_
  by_cases hin : g.isInteriorIdxB j = true ∧ g.isNoDataIdxB j = false
  · have hjtr : j ∈ (finalState g).trace := (htr j).mpr hin
    by_cases hfw : forwardB g j = true
    · rw [if_neg (by rintro ⟨-, -, hc⟩; rw [hfw] at hc; cases hc),
        if_pos ⟨hjtr, hfw⟩]
    · rw [Bool.not_eq_true] at hfw
      rw [if_pos ⟨hin.1, hin.2, hfw⟩,
        if_neg (by rintro ⟨-, hc⟩; rw [hfw] at hc; cases hc),
        engine_accum g j hin.2]
  · have hjtr : j ∉ (finalState g).trace := fun hc => hin ((htr j).mp hc)
    rw [if_neg (by rintro ⟨ha, hb, -⟩; exact hin ⟨ha, hb⟩),
      if_neg (fun hc => hjtr hc.1)]
    have hcond : g.isInteriorIdxB j = false ∨ g.isNoDataIdxB j = true := by
      by_cases ha : g.isInteriorIdxB j = true
      · right
        by_cases hb : g.isNoDataIdxB j = true
        · exact hb
        · exact absurd ⟨ha, by rw [Bool.not_eq_true] at hb; exact hb⟩ hin
      · left
        rw [Bool.not_eq_true] at ha
        exact ha
    exact (inv.accumZ j hcond).symm

/-- Witness for `C4_amended`: the star grid (valid, acyclic, small). -/
theorem C4_amended_witness :
    (∑ j ∈ Finset.range gStar.size,
        if gStar.isInteriorIdxB j = true ∧ gStar.isNoDataIdxB j = false ∧
            forwardB gStar j = false
        then flow_accumulation_from_d8 gStar j else 0) =
      ((Finset.range gStar.size).filter fun j =>
        gStar.isInteriorIdxB j = true ∧ gStar.isNoDataIdxB j = false).card :=
  C4_amended gStar (by decide) (by decide) (by decide)

/-! ## Claims about concrete inputs -/

/-- C1, counterexample. On the manufactured two-cell flow field A→B→A of
`gCyc` (cells 5 and 6, both non-no-data), `flow_accumulation_from_d8`
does not report any fatal `CycleDetected` condition — its return type has
no failure channel because the source contains no cycle check — and it
returns an ordinary accumulation grid whose values at the cycle cells are
the partial value `0`, while their dependency counts are still nonzero
when the ready queue has emptied. -/
theorem C1_counterexample :
    flow_accumulation_from_d8 gCyc 5 = 0 ∧
    flow_accumulation_from_d8 gCyc 6 = 0 ∧
    gCyc.isNoDataIdxB 5 = false ∧
    gCyc.isNoDataIdxB 6 = false ∧
    (finalState gCyc).queue = [] ∧
    (finalState gCyc).deps 5 ≠ 0 := by
  refine ⟨by decide, by decide, by decide, by decide, by decide, by decide⟩

/-- C1, amended. When the ready queue empties while some non-no-data cell
still has a nonzero dependency count (the manufactured two-cell flow
field A→B→A of `gCyc`), `flow_accumulation_from_d8` terminates normally
and returns the accumulation grid as-is: both cycle cells keep dependency
count `1` and the returned grid holds the partial value `0` at them. No
cycle condition is detected or reported. -/
theorem C1_amended :
    (finalState gCyc).queue = [] ∧
    (finalState gCyc).deps 5 = 1 ∧
    (finalState gCyc).deps 6 = 1 ∧
    flow_accumulation_from_d8 gCyc 5 = 0 ∧
    flow_accumulation_from_d8 gCyc 6 = 0 := by
  refine ⟨by decide, by decide, by decide, by decide, by decide⟩

/-- C2, counterexample. On `gND` (input no-data sentinel `99`, centre
cell no-data), the returned accumulation grid holds `99` — the input
grid's sentinel — at the no-data cell, not the accumulation grid's own
declared sentinel `ACCUM_NO_DATA`. -/
theorem C2_counterexample :
    gND.isNoDataIdxB 4 = true ∧
    flow_accumulation_from_d8 gND 4 = 99 ∧
    flow_accumulation_from_d8 gND 4 ≠ ACCUM_NO_DATA := by
  refine ⟨by decide, by decide, by decide⟩

/-- C2, amended. After the propagation loop, every cell that is no-data
in the input direction grid holds the input grid's no-data sentinel
converted to `uint32_t` — which differs from the accumulation grid's own
declared sentinel `ACCUM_NO_DATA` whenever the converted input sentinel
does. -/
theorem C2_amended (g : D8Grid) (j : Nat) (hj : j < g.size)
    (hnd : g.isNoDataIdxB j = true) :
    flow_accumulation_from_d8 g j = intToU32 g.noData ∧
    (intToU32 g.noData ≠ ACCUM_NO_DATA →
      flow_accumulation_from_d8 g j ≠ ACCUM_NO_DATA) := by
  have h : flow_accumulation_from_d8 g j = intToU32 g.noData := by
    unfold flow_accumulation_from_d8
    simp [hj, hnd]
  exact ⟨h, fun hne => h ▸ hne⟩

/-- Witness for `C2_amended`: the grid `gND` at its no-data centre. -/
theorem C2_amended_witness :
    flow_accumulation_from_d8 gND 4 = intToU32 gND.noData ∧
    (intToU32 gND.noData ≠ ACCUM_NO_DATA →
      flow_accumulation_from_d8 gND 4 ≠ ACCUM_NO_DATA) :=
  C2_amended gND 4 (by decide) (by decide)

/-- C3, counterexample. On the 3×3 star grid `gStar` (all eight border
cells route into the centre, the centre is no-flow, no cell is no-data),
the returned accumulation at the centre is `1`, not the claimed `9`. -/
theorem C3_counterexample :
    flow_accumulation_from_d8 gStar 4 = 1 ∧ (1 : Nat) ≠ 9 := by
  refine ⟨by decide, by decide⟩

/-- C3, amended. On the 3×3 star grid, `flow_accumulation_from_d8`
returns accumulation `1` at the centre and `0` at each of the eight
border cells: border cells are never enqueued and flow routed into a
border cell is discarded, so only the centre's own unit contribution is
counted. -/
theorem C3_amended :
    flow_accumulation_from_d8 gStar 4 = 1 ∧
    (([0, 1, 2, 3, 5, 6, 7, 8] : List Nat).all
      fun j => flow_accumulation_from_d8 gStar j == 0) = true := by
  refine ⟨by decide, by decide⟩

/-- C4, counterexample. The 3×3 star grid `gStar` is an acyclic flow
field, yet the sum of the returned accumulation values over the claim's
terminal cells (here: only the centre) is `1`, while nine non-no-data
cells reach a terminal cell along the flow field: total inflow does not
equal total outflow because border cells are never processed. -/
theorem C4_counterexample :
    acyclicB gStar = true ∧
    ((List.range gStar.size).map
      fun j => if claimTerminalB gStar j then flow_accumulation_from_d8 gStar j else 0).sum = 1 ∧
    ((List.range gStar.size).filter
      fun j => !gStar.isNoDataIdxB j && reachTermB gStar gStar.size j).length = 9 ∧
    (1 : Nat) ≠ 9 := by
  refine ⟨by decide, by decide, by decide, by decide⟩

/-- C8, counterexample. On `gBad` — whose interior cell 6 is non-no-data
and carries the out-of-domain direction code `9` — the dependency pass
does not fail with any precondition check before mutating: it first
increments the dependency register of cell 6 (the mutation performed for
the in-domain source cell 5) and then indexes the neighbour tables out
of bounds at cell 6 (undefined behaviour, the raised flag); no
`PreconditionViolation` condition exists anywhere in the engine. -/
theorem C8_counterexample :
    gBad.isNoDataIdxB 6 = false ∧
    gBad.data 6 = 9 ∧
    (buildDepsTraced gBad).1 6 = 1 ∧
    (buildDepsTraced gBad).2 = true := by
  refine ⟨by decide, by decide, by decide, by decide⟩

/-- C8, amended. The engine performs no domain validation of direction
codes: whenever some interior non-no-data cell carries a direction code
outside `0..8`, the dependency pass reaches an out-of-bounds read of the
neighbour-offset tables (undefined behaviour) instead of raising a fatal
`PreconditionViolation` — and register mutations for cells visited
earlier in the scan have already happened by then. -/
theorem C8_amended (g : D8Grid)
    (h : ∃ p ∈ interiorXY g,
      g.isNoDataIdxB (g.xyToI p.1 p.2) = false ∧
      (g.data (g.xyToI p.1 p.2) < 0 ∨ 8 < g.data (g.xyToI p.1 p.2))) :
    (buildDepsTraced g).2 = true := by
  obtain ⟨p, hmem, hnd, hbad⟩ := h
  exact depsTraced_flag_of_bad g _ _ p hmem hnd hbad

/-- Witness for `C8_amended`: the grid `gBad`, bad cell `(2,1)`. -/
theorem C8_amended_witness : (buildDepsTraced gBad).2 = true :=
  C8_amended gBad ⟨(2, 1), by decide, by decide, by decide⟩

/-- C5. In the dependency-count build pass, border cells never originate
a dependency edge: for every grid, the count of every cell `j` equals
the number of *interior* source cells whose routing hits `j` (so border
sources contribute nothing). Border cells remain valid targets: on
`gC5`, the interior centre (cell 4) routes north into the border cell 1,
whose dependency count becomes 1. -/
theorem C5_border_sources :
    (∀ (g : D8Grid) (j : Nat),
      buildDeps g j =
        (((List.range g.size).countP
          fun i => g.isInteriorIdxB i && hitB g i j : Nat) : Int)) ∧
    gC5.isInteriorIdxB 4 = true ∧ hitB gC5 4 1 = true ∧
    gC5.isEdgeIdxB 1 = true ∧ buildDeps gC5 1 = 1 :=
  ⟨buildDeps_eq_countP, by decide, by decide, by decide, by decide⟩

end RichDem
